import Mathlib

/-!
Verification of the FinanceTracker data-synchronization core
(`src/finance_app.py`) against its natural-language specification.

The Python source is shallowly embedded: pure helpers (`safe_float`,
`safe_date`, `get_next_id`, ...) become Lean functions; the Google-Sheets
side effects are modelled as explicit call traces (`RCall`) plus the
resulting table state; Python `float` currency arithmetic is modelled by
exact rationals (`ℚ`), with Python's decimal rendering of such values
modelled explicitly (including the switch to scientific notation at 1e16).
-/

namespace FinanceTracker

attribute [local semireducible] Rat.add Rat.mul Rat.inv Rat.sub Rat.ofScientific

/-! ### Decimal digits of natural numbers

Machinery shared by the models of Python number rendering (`str`) and
parsing (`float`, `strptime`).  The renderer is fuelled so that every
definition is structurally recursive and kernel-reducible. -/

def digitChar (n : Nat) : Char :=
  match n with
  | 0 => '0' | 1 => '1' | 2 => '2' | 3 => '3' | 4 => '4'
  | 5 => '5' | 6 => '6' | 7 => '7' | 8 => '8' | _ => '9'

def isDig (c : Char) : Bool := decide (48 ≤ c.toNat ∧ c.toNat ≤ 57)

def digitVal (c : Char) : Nat := c.toNat - 48

/-- Fuelled most-significant-first decimal rendering; any `fuel > n` is enough. -/
def natDigitsGo : Nat → Nat → List Char → List Char
  | 0, _, acc => acc
  | fuel + 1, n, acc =>
    if n < 10 then digitChar n :: acc
    else natDigitsGo fuel (n / 10) (digitChar (n % 10) :: acc)

/-- Decimal digits of `n`, most significant first; `0` renders as `"0"`,
no leading zeros otherwise. -/
def natDigits (n : Nat) : List Char := natDigitsGo (n + 1) n []

theorem natDigitsGo_append (fuel : Nat) :
    ∀ n acc, n < fuel → natDigitsGo fuel n acc = natDigitsGo fuel n [] ++ acc := by
  induction fuel with
  | zero => intro n acc h; omega
  | succ fuel ih =>
    intro n acc h
    by_cases h10 : n < 10
    · simp [natDigitsGo, h10]
    · have hdiv : n / 10 < fuel := by
        have h1 : n / 10 < n := Nat.div_lt_self (by omega) (by omega)
        omega
      simp only [natDigitsGo, if_neg h10]
      rw [ih (n / 10) _ hdiv, ih (n / 10) (digitChar (n % 10) :: []) hdiv]
      simp

theorem natDigitsGo_fuel (fuel1 : Nat) :
    ∀ fuel2 n, n < fuel1 → n < fuel2 →
      natDigitsGo fuel1 n [] = natDigitsGo fuel2 n [] := by
  induction fuel1 with
  | zero => intro fuel2 n h1 _; omega
  | succ fuel1 ih =>
    intro fuel2 n h1 h2
    match fuel2, h2 with
    | fuel2 + 1, h2 =>
      by_cases h10 : n < 10
      · simp [natDigitsGo, h10]
      · have hlt : n / 10 < n := Nat.div_lt_self (by omega) (by omega)
        have hd1 : n / 10 < fuel1 := by omega
        have hd2 : n / 10 < fuel2 := by omega
        simp only [natDigitsGo, if_neg h10]
        rw [natDigitsGo_append fuel1 _ _ hd1, natDigitsGo_append fuel2 _ _ hd2,
          ih fuel2 (n / 10) hd1 hd2]

theorem natDigits_lt (n : Nat) (h : n < 10) : natDigits n = [digitChar n] := by
  simp [natDigits, natDigitsGo, h]

theorem natDigits_ge (n : Nat) (h : 10 ≤ n) :
    natDigits n = natDigits (n / 10) ++ [digitChar (n % 10)] := by
  have h10 : ¬ n < 10 := by omega
  have hlt : n / 10 < n := Nat.div_lt_self (by omega) (by omega)
  show natDigitsGo (n + 1) n [] = _
  simp only [natDigitsGo, if_neg h10]
  rw [natDigitsGo_append n _ _ (by omega), natDigitsGo_fuel n (n / 10 + 1) (n / 10) (by omega) (by omega)]
  rfl

theorem isDig_digitChar (n : Nat) : isDig (digitChar n) = true := by
  unfold digitChar
  split <;> rfl

theorem digitVal_digitChar (n : Nat) (h : n < 10) : digitVal (digitChar n) = n := by
  interval_cases n <;> rfl

theorem natDigits_all_dig (n : Nat) : ∀ c ∈ natDigits n, isDig c = true := by
  induction n using Nat.strong_induction_on with
  | _ n ih =>
    by_cases h : n < 10
    · rw [natDigits_lt n h]
      intro c hc
      simp at hc
      subst hc
      exact isDig_digitChar n
    · rw [natDigits_ge n (by omega)]
      intro c hc
      rcases List.mem_append.mp hc with hc | hc
      · exact ih (n / 10) (Nat.div_lt_self (by omega) (by omega)) c hc
      · simp at hc
        subst hc
        exact isDig_digitChar (n % 10)

theorem natDigits_ne_nil (n : Nat) : natDigits n ≠ [] := by
  by_cases h : n < 10
  · rw [natDigits_lt n h]; simp
  · rw [natDigits_ge n (by omega)]; simp

def digitsVal (cs : List Char) : Nat := cs.foldl (fun a c => a * 10 + digitVal c) 0

theorem foldl_digits (n : Nat) :
    ∀ a : Nat, (natDigits n).foldl (fun x c => x * 10 + digitVal c) a
      = a * 10 ^ (natDigits n).length + n := by
  induction n using Nat.strong_induction_on with
  | _ n ih =>
    intro a
    by_cases h : n < 10
    · rw [natDigits_lt n h]
      simp [List.foldl, digitVal_digitChar n h]
    · rw [natDigits_ge n (by omega)]
      rw [List.foldl_append]
      rw [ih (n / 10) (Nat.div_lt_self (by omega) (by omega)) a]
      have hm : n % 10 < 10 := Nat.mod_lt _ (by omega)
      simp only [List.foldl, digitVal_digitChar _ hm, List.length_append, List.length_cons,
        List.length_nil]
      have hdm : n / 10 * 10 + n % 10 = n := by omega
      calc (a * 10 ^ (natDigits (n / 10)).length + n / 10) * 10 + n % 10
          = a * (10 ^ (natDigits (n / 10)).length * 10) + (n / 10 * 10 + n % 10) := by ring
        _ = a * 10 ^ ((natDigits (n / 10)).length + (0 + 1)) + n := by
            rw [hdm]
            ring_nf

theorem digitsVal_natDigits (n : Nat) : digitsVal (natDigits n) = n := by
  have h := foldl_digits n 0
  simpa [digitsVal] using h

theorem natDigits_length_four (y : Nat) (h1 : 1000 ≤ y) (h2 : y ≤ 9999) :
    (natDigits y).length = 4 := by
  have e3 : natDigits y = natDigits (y / 10) ++ [digitChar (y % 10)] :=
    natDigits_ge y (by omega)
  have e2 : natDigits (y / 10) = natDigits (y / 10 / 10) ++ [digitChar (y / 10 % 10)] :=
    natDigits_ge (y / 10) (by omega)
  have e1 : natDigits (y / 10 / 10) =
      natDigits (y / 10 / 10 / 10) ++ [digitChar (y / 10 / 10 % 10)] :=
    natDigits_ge (y / 10 / 10) (by omega)
  have e0 : natDigits (y / 10 / 10 / 10) = [digitChar (y / 10 / 10 / 10)] :=
    natDigits_lt _ (by omega)
  rw [e3, e2, e1, e0]
  simp

/-! ### Model of `safe_float` (finance_app.py lines 41-51)

Python: strip the value of every character that is not a digit, `.` or `-`;
parse with `float(...)`; round the result to two decimals; any failure or an
empty input yields `0.0`.  Python `float` arithmetic is modelled by exact
rationals; `round` is round-half-to-even (Python's semantics). -/

def isSpaceCh (c : Char) : Bool :=
  decide (c.toNat = 32 ∨ c.toNat = 9 ∨ c.toNat = 10 ∨ c.toNat = 13 ∨ c.toNat = 11 ∨ c.toNat = 12)

/-- Model of Python `str.strip()`: drop leading and trailing whitespace. -/
def pyStrip (cs : List Char) : List Char :=
  ((cs.dropWhile isSpaceCh).reverse.dropWhile isSpaceCh).reverse

/-- Model of `re.sub(r'[^\d.-]', '', text)`: keep only digits, dots and minus signs. -/
def stripAmount (cs : List Char) : List Char :=
  cs.filter (fun c => isDig c || c == '.' || c == '-')

/-- Model of Python `float(...)` on an unsigned literal: digits with at most one
dot, at least one digit in total (accepts forms like `"1"`, `"1."`, `".5"`). -/
def parsePyFloatCore (cs : List Char) : Option ℚ :=
  let ip := cs.takeWhile (fun c => c != '.')
  let fp := (cs.dropWhile (fun c => c != '.')).drop 1
  if ip.all isDig && fp.all isDig && (ip ≠ [] || fp ≠ []) then
    some ((digitsVal ip : ℚ) + (digitsVal fp : ℚ) / (10 : ℚ) ^ fp.length)
  else none

/-- Model of Python `float(...)`: an optional leading minus sign, then an
unsigned decimal literal. -/
def parsePyFloat (cs : List Char) : Option ℚ :=
  if cs.head? = some '-' then (parsePyFloatCore (cs.drop 1)).map (fun q => -q)
  else parsePyFloatCore cs

/-- Round to the nearest integer, ties to the even integer (Python `round`). -/
def roundHalfEven (q : ℚ) : ℤ :=
  let f := ⌊q⌋
  if q - (f : ℚ) < 1 / 2 then f
  else if (1 : ℚ) / 2 < q - (f : ℚ) then f + 1
  else if f % 2 = 0 then f else f + 1

/-- Model of Python `round(x, 2)`. -/
def round2 (q : ℚ) : ℚ := ((roundHalfEven (q * 100) : ℤ) : ℚ) / 100

/-- Model of `safe_float` from finance_app.py on string input: empty (after
whitespace strip) gives `0`, otherwise strip non-numeric characters, parse as a
float and round to 2 decimals; a parse failure gives `0`. -/
def safe_float (s : String) : ℚ :=
  if pyStrip s.data = [] then 0
  else
    match parsePyFloat (stripAmount s.data) with
    | some q => round2 q
    | none => 0

/-- Fractional part of Python's shortest decimal rendering of a value `a + b/100`
with `b < 100`: trailing zeros are dropped, `0` prints one zero. -/
def fracDigits (b : Nat) : List Char :=
  if b = 0 then ['0']
  else if b % 10 = 0 then [digitChar (b / 10)]
  else if b < 10 then ['0', digitChar b]
  else [digitChar (b / 10), digitChar (b % 10)]

/-- Model of Python `str(...)` applied to the float values `safe_float` returns
(multiples of 1/100).  CPython prints such values in plain positional form below
1e16 and switches to scientific notation (`'1e+16'`) from 1e16 on; the mantissa
drops trailing zeros. -/
def floatStr (q : ℚ) : String :=
  let m : ℤ := ⌊q * 100⌋
  let a : Nat := m.natAbs / 100
  let b : Nat := m.natAbs % 100
  let sign : List Char := if m < 0 then ['-'] else []
  if a < 10 ^ 16 then
    String.mk (sign ++ natDigits a ++ '.' :: fracDigits b)
  else
    let ds := natDigits a
    let mant := ((ds.drop 1).reverse.dropWhile (fun c => c == '0')).reverse
    String.mk (sign ++ ds.take 1 ++ (if mant = [] then [] else '.' :: mant)
      ++ 'e' :: '+' :: natDigits (ds.length - 1))


theorem roundHalfEven_intCast (m : ℤ) : roundHalfEven (m : ℚ) = m := by
  unfold roundHalfEven
  simp [Int.floor_intCast]

theorem round2_div100 (m : ℤ) : round2 ((m : ℚ) / 100) = (m : ℚ) / 100 := by
  unfold round2
  rw [div_mul_cancel₀ ((m : ℚ)) (by norm_num : (100 : ℚ) ≠ 0), roundHalfEven_intCast]

theorem safe_float_form (s : String) : ∃ m : ℤ, safe_float s = (m : ℚ) / 100 := by
  unfold safe_float
  split
  · exact ⟨0, by norm_num⟩
  · cases hp : parsePyFloat (stripAmount s.data) with
    | none => exact ⟨0, by norm_num⟩
    | some q => exact ⟨roundHalfEven (q * 100), rfl⟩

theorem isDig_bounds (c : Char) (h : isDig c = true) : 48 ≤ c.toNat ∧ c.toNat ≤ 57 := by
  simpa [isDig] using h

theorem isDig_beq_dot (c : Char) (h : isDig c = true) : (c == '.') = false := by
  apply beq_eq_false_iff_ne.mpr
  intro heq
  subst heq
  exact absurd h (by decide)

theorem isDig_beq_dash (c : Char) (h : isDig c = true) : (c == '-') = false := by
  apply beq_eq_false_iff_ne.mpr
  intro heq
  subst heq
  exact absurd h (by decide)

theorem isDig_not_space (c : Char) (h : isDig c = true) : isSpaceCh c = false := by
  have hb := isDig_bounds c h
  simp only [isSpaceCh, decide_eq_false_iff_not]
  omega

theorem dropWhile_eq_self_of (p : Char → Bool) (l : List Char)
    (h : ∀ c ∈ l, p c = false) : l.dropWhile p = l := by
  cases l with
  | nil => rfl
  | cons c cs => simp [List.dropWhile, h c (by simp)]

theorem pyStrip_eq_self (cs : List Char) (h : ∀ c ∈ cs, isSpaceCh c = false) :
    pyStrip cs = cs := by
  unfold pyStrip
  rw [dropWhile_eq_self_of _ _ h,
    dropWhile_eq_self_of _ _ (fun c hc => h c (List.mem_reverse.mp hc)),
    List.reverse_reverse]

theorem takeWhile_all_append (p : Char → Bool) (l : List Char) (x : Char) (r : List Char)
    (hl : ∀ c ∈ l, p c = true) (hx : p x = false) :
    (l ++ x :: r).takeWhile p = l ∧ (l ++ x :: r).dropWhile p = x :: r := by
  induction l with
  | nil => simp [List.takeWhile, List.dropWhile, hx]
  | cons c cs ih =>
    have hc : p c = true := hl c (by simp)
    have ih2 := ih (fun d hd => hl d (by simp [hd]))
    simp [List.takeWhile, List.dropWhile, hc, ih2.1, ih2.2]

theorem fracDigits_all : ∀ b < 100, (fracDigits b).all isDig = true := by decide

theorem fracDigits_spec :
    ∀ b < 100, (digitsVal (fracDigits b) : ℚ) / (10 : ℚ) ^ (fracDigits b).length
      = (b : ℚ) / 100 := by decide

theorem parsePyFloatCore_render (a b : Nat) (hb : b < 100) :
    parsePyFloatCore (natDigits a ++ '.' :: fracDigits b)
      = some ((a : ℚ) + (b : ℚ) / 100) := by
  have hds : ∀ c ∈ natDigits a, (fun c => c != '.') c = true := by
    intro c hc
    simp [bne, isDig_beq_dot c (natDigits_all_dig a c hc)]
  have hdot : (fun c => c != '.') '.' = false := by decide
  have htw := takeWhile_all_append _ (natDigits a) '.' (fracDigits b) hds hdot
  have hall1 : (natDigits a).all isDig = true := by
    rw [List.all_eq_true]
    exact natDigits_all_dig a
  have hall2 := fracDigits_all b hb
  unfold parsePyFloatCore
  rw [htw.1, htw.2]
  simp only [List.drop_succ_cons, List.drop_zero]
  rw [hall1, hall2]
  simp [natDigits_ne_nil a, digitsVal_natDigits, fracDigits_spec b hb]

theorem body_chars (a b : Nat) (hb : b < 100) :
    ∀ c ∈ natDigits a ++ '.' :: fracDigits b, isDig c = true ∨ c = '.' := by
  intro c hc
  rcases List.mem_append.mp hc with hc | hc
  · exact Or.inl (natDigits_all_dig a c hc)
  · rcases List.mem_cons.mp hc with hc | hc
    · exact Or.inr hc
    · refine Or.inl ?_
      have hall := fracDigits_all b hb
      rw [List.all_eq_true] at hall
      exact hall c hc

theorem pyStrip_body (a b : Nat) (hb : b < 100) :
    pyStrip (natDigits a ++ '.' :: fracDigits b) = natDigits a ++ '.' :: fracDigits b := by
  apply pyStrip_eq_self
  intro c hc
  rcases body_chars a b hb c hc with h | h
  · exact isDig_not_space c h
  · subst h; rfl

theorem stripAmount_body (a b : Nat) (hb : b < 100) :
    stripAmount (natDigits a ++ '.' :: fracDigits b) = natDigits a ++ '.' :: fracDigits b := by
  unfold stripAmount
  rw [List.filter_eq_self]
  intro c hc
  rcases body_chars a b hb c hc with h | h
  · simp [h]
  · subst h; rfl

theorem body_ne_nil (a b : Nat) : natDigits a ++ '.' :: fracDigits b ≠ [] := by
  intro hcontra
  rcases List.append_eq_nil.mp hcontra with ⟨h1, _⟩
  exact natDigits_ne_nil a h1

theorem parsePyFloat_body (a b : Nat) (hb : b < 100) :
    parsePyFloat (natDigits a ++ '.' :: fracDigits b) = some ((a : ℚ) + (b : ℚ) / 100) := by
  unfold parsePyFloat
  rcases List.exists_cons_of_ne_nil (natDigits_ne_nil a) with ⟨c, rest, hcr⟩
  have hcdig : isDig c = true := by
    apply natDigits_all_dig a
    rw [hcr]; simp
  have hhead : (natDigits a ++ '.' :: fracDigits b).head? = some c := by
    rw [hcr]; rfl
  rw [hhead]
  have hcne : ¬ (some c = some '-') := by
    intro hsome
    have hc2 : c = '-' := by injection hsome
    subst hc2
    exact absurd hcdig (by decide)
  rw [if_neg hcne]
  exact parsePyFloatCore_render a b hb

theorem parsePyFloat_neg_body (a b : Nat) (hb : b < 100) :
    parsePyFloat ('-' :: (natDigits a ++ '.' :: fracDigits b))
      = some (-((a : ℚ) + (b : ℚ) / 100)) := by
  unfold parsePyFloat
  have hc : ('-' :: (natDigits a ++ '.' :: fracDigits b)).head? = some '-' := rfl
  rw [if_pos hc]
  simp only [List.drop_succ_cons, List.drop_zero]
  rw [parsePyFloatCore_render a b hb]
  rfl

theorem val_eq_div100 (a b : Nat) :
    (a : ℚ) + (b : ℚ) / 100 = (((a * 100 + b : ℕ) : ℤ) : ℚ) / 100 := by
  push_cast
  field_simp

theorem safe_float_body (a b : Nat) (hb : b < 100) :
    safe_float (String.mk (natDigits a ++ '.' :: fracDigits b)) = (a : ℚ) + (b : ℚ) / 100 := by
  unfold safe_float
  have hdata : (String.mk (natDigits a ++ '.' :: fracDigits b)).data
      = natDigits a ++ '.' :: fracDigits b := rfl
  rw [hdata, pyStrip_body a b hb, if_neg (body_ne_nil a b), stripAmount_body a b hb,
    parsePyFloat_body a b hb]
  rw [val_eq_div100 a b]
  exact round2_div100 _

theorem safe_float_body_neg (a b : Nat) (hb : b < 100) :
    safe_float (String.mk ('-' :: (natDigits a ++ '.' :: fracDigits b)))
      = -((a : ℚ) + (b : ℚ) / 100) := by
  unfold safe_float
  have hdata : (String.mk ('-' :: (natDigits a ++ '.' :: fracDigits b))).data
      = '-' :: (natDigits a ++ '.' :: fracDigits b) := rfl
  have hstrip : pyStrip ('-' :: (natDigits a ++ '.' :: fracDigits b))
      = '-' :: (natDigits a ++ '.' :: fracDigits b) := by
    apply pyStrip_eq_self
    intro c hc
    rcases List.mem_cons.mp hc with hc | hc
    · subst hc; rfl
    · rcases body_chars a b hb c hc with h | h
      · exact isDig_not_space c h
      · subst h; rfl
  have hfilter : stripAmount ('-' :: (natDigits a ++ '.' :: fracDigits b))
      = '-' :: (natDigits a ++ '.' :: fracDigits b) := by
    unfold stripAmount
    rw [List.filter_eq_self]
    intro c hc
    rcases List.mem_cons.mp hc with hc | hc
    · subst hc; rfl
    · rcases body_chars a b hb c hc with h | h
      · simp [h]
      · subst h; rfl
  rw [hdata, hstrip, if_neg (by simp), hfilter, parsePyFloat_neg_body a b hb]
  have hval : -((a : ℚ) + (b : ℚ) / 100) = (((-(a * 100 + b : ℕ) : ℤ)) : ℚ) / 100 := by
    push_cast
    field_simp
  rw [hval]
  exact round2_div100 _

theorem floatStr_div100 (m : ℤ) (hm : m.natAbs < 10 ^ 18) :
    floatStr ((m : ℚ) / 100) =
      String.mk ((if m < 0 then ['-'] else [])
        ++ natDigits (m.natAbs / 100) ++ '.' :: fracDigits (m.natAbs % 100)) := by
  unfold floatStr
  rw [div_mul_cancel₀ ((m : ℚ)) (by norm_num : (100 : ℚ) ≠ 0), Int.floor_intCast]
  have ha : m.natAbs / 100 < 10 ^ 16 := by omega
  simp only [ha, if_true]

theorem safe_float_render (m : ℤ) (hm : m.natAbs < 10 ^ 18) :
    safe_float (floatStr ((m : ℚ) / 100)) = (m : ℚ) / 100 := by
  rw [floatStr_div100 m hm]
  have hb : m.natAbs % 100 < 100 := by omega
  have hdm : m.natAbs / 100 * 100 + m.natAbs % 100 = m.natAbs := by omega
  rcases Decidable.em (m < 0) with hneg | hneg
  · rw [if_pos hneg]
    have hlist : (['-'] : List Char) ++ natDigits (m.natAbs / 100) ++ '.'
        :: fracDigits (m.natAbs % 100)
        = '-' :: (natDigits (m.natAbs / 100) ++ '.' :: fracDigits (m.natAbs % 100)) := rfl
    rw [hlist, safe_float_body_neg _ _ hb, val_eq_div100, hdm]
    have h1 : (m.natAbs : ℤ) = -m := by omega
    have h2 : ((m.natAbs : ℤ) : ℚ) = -(m : ℚ) := by
      rw [h1]
      push_cast
      ring
    rw [h2]
    ring
  · rw [if_neg hneg, List.nil_append, safe_float_body _ _ hb, val_eq_div100, hdm]
    have h1 : (m.natAbs : ℤ) = m := by omega
    have h2 : ((m.natAbs : ℤ) : ℚ) = (m : ℚ) := by rw [h1]
    rw [h2]

/-- C8 (amended): `safe_float` (the spec's `parseAmount`) strips every character
that is not a digit, `.` or `-`, returns zero on empty input or parse failure,
always returns a value with at most two decimal places, and is idempotent under
re-parsing its own string rendering whenever the parsed value is below 1e16 (the
threshold at which Python switches to scientific-notation rendering, which the
re-parse then destroys). -/
theorem safe_float_spec (s : String) :
    (|safe_float s| < 10 ^ 16 → safe_float (floatStr (safe_float s)) = safe_float s)
    ∧ (pyStrip s.data = [] → safe_float s = 0)
    ∧ (parsePyFloat (stripAmount s.data) = none → safe_float s = 0)
    ∧ ∃ m : ℤ, safe_float s = (m : ℚ) / 100 := by
  obtain ⟨m, hm⟩ := safe_float_form s
  refine ⟨?_, ?_, ?_, ⟨m, hm⟩⟩
  · intro hlt
    rw [hm] at hlt ⊢
    apply safe_float_render
    have h1 : |(m : ℚ)| / 100 < 10 ^ 16 := by
      rw [← abs_of_pos (show (0 : ℚ) < 100 by norm_num), ← abs_div]
      exact hlt
    have h2 : |(m : ℚ)| < 10 ^ 18 := by
      have := (div_lt_iff₀ (show (0 : ℚ) < 100 by norm_num)).mp h1
      calc |(m : ℚ)| < 10 ^ 16 * 100 := this
        _ = 10 ^ 18 := by norm_num
    have h3 : ((m.natAbs : ℕ) : ℚ) < 10 ^ 18 := by
      rw [Int.cast_natAbs, Int.cast_abs]
      exact h2
    exact_mod_cast h3
  · intro h
    unfold safe_float
    rw [if_pos h]
  · intro h
    unfold safe_float
    split
    · rfl
    · rw [h]

/-- Witness for C8 at the concrete input `"1,234.56"`. -/
theorem safe_float_spec_witness :
    safe_float (floatStr (safe_float "1,234.56")) = safe_float "1,234.56" :=
  (safe_float_spec "1,234.56").1 (by decide)

/-- C8 counterexample: the claim's unrestricted idempotence is false.  For the
input `"10000000000000000"` (1e16) the parsed value renders in scientific
notation as `"1e+16"`, whose re-parse strips the `e`/`+` and yields `116`. -/
theorem safe_float_claim_counterexample :
    safe_float "10000000000000000" = 10 ^ 16
    ∧ floatStr (safe_float "10000000000000000") = "1e+16"
    ∧ safe_float "1e+16" = 116
    ∧ safe_float (floatStr (safe_float "10000000000000000")) ≠ safe_float "10000000000000000" := by
  refine ⟨by decide, by decide, by decide, by decide⟩

/-! ### Model of `safe_date` (finance_app.py lines 53-71)

Python tries eight `strptime` formats in order; the first that fully matches
wins.  `strptime` field regexes: `%Y` is exactly four digits, `%y` exactly two
(00-68 maps to 2000-2068, 69-99 to 1969-1999), `%d`/`%m` are one or two digits
in range, `%b` a case-insensitive month abbreviation.  The parsed fields must
form a valid calendar date (otherwise `ValueError`, and the next format is
tried); a format without a year defaults to 1900 and the code then substitutes
the current year. -/

structure PyDate where
  year : Nat
  month : Nat
  day : Nat
deriving DecidableEq

def isLeap (y : Nat) : Bool := y % 4 == 0 && (y % 100 != 0 || y % 400 == 0)

def daysInMonth (y m : Nat) : Nat :=
  if m = 2 then (if isLeap y then 29 else 28)
  else if m = 4 ∨ m = 6 ∨ m = 9 ∨ m = 11 then 30
  else 31

def validYMD (y m d : Nat) : Bool :=
  decide (1 ≤ y) && decide (y ≤ 9999) && decide (1 ≤ m) && decide (m ≤ 12)
    && decide (1 ≤ d) && decide (d ≤ daysInMonth y m)

/-- `datetime(y, m, d)`: raises (here: `none`) unless the date is valid. -/
def mkDate (y m d : Nat) : Option PyDate :=
  if validYMD y m d then some ⟨y, m, d⟩ else none

/-- strptime `%d`/`%m` component: one or two digits, value within `lo..hi`
(the two-digit form excludes `00`, which the bounds also enforce). -/
def parse2d (lo hi : Nat) (cs : List Char) : Option Nat :=
  if cs.all isDig && (cs.length = 1 ∨ cs.length = 2)
      && (lo ≤ digitsVal cs) && (digitsVal cs ≤ hi) then
    some (digitsVal cs)
  else none

/-- strptime `%Y` component: exactly four digits. -/
def parseY4 (cs : List Char) : Option Nat :=
  if cs.all isDig && cs.length = 4 then some (digitsVal cs) else none

/-- strptime `%y` component: exactly two digits; 00-68 → 2000-2068,
69-99 → 1969-1999. -/
def parseY2 (cs : List Char) : Option Nat :=
  if cs.all isDig && cs.length = 2 then
    some (if digitsVal cs ≤ 68 then 2000 + digitsVal cs else 1900 + digitsVal cs)
  else none

def monthNames : List (List Char) :=
  [['j','a','n'], ['f','e','b'], ['m','a','r'], ['a','p','r'], ['m','a','y'], ['j','u','n'],
   ['j','u','l'], ['a','u','g'], ['s','e','p'], ['o','c','t'], ['n','o','v'], ['d','e','c']]

def findMonth (cs : List Char) : Nat → List (List Char) → Option Nat
  | _, [] => none
  | k, nm :: rest => if cs = nm then some k else findMonth cs (k + 1) rest

/-- strptime `%b` component: case-insensitive month abbreviation. -/
def parseMon (cs : List Char) : Option Nat :=
  findMonth (cs.map Char.toLower) 1 monthNames

/-- Split a character list at a separator (like `str.split`; used to model the
fixed-separator strptime formats). -/
def splitCh (sep : Char) : List Char → List (List Char)
  | [] => [[]]
  | c :: cs =>
    match splitCh sep cs with
    | [] => if c == sep then [[], []] else [[c]]
    | p :: ps => if c == sep then [] :: p :: ps else (c :: p) :: ps

def tryYmd (cs : List Char) : Option PyDate :=
  match splitCh '-' cs with
  | [ys, ms, ds] => do
      let y ← parseY4 ys
      let m ← parse2d 1 12 ms
      let d ← parse2d 1 31 ds
      mkDate y m d
  | _ => none

def tryDmy (cs : List Char) : Option PyDate :=
  match splitCh '-' cs with
  | [ds, ms, ys] => do
      let d ← parse2d 1 31 ds
      let m ← parse2d 1 12 ms
      let y ← parseY4 ys
      mkDate y m d
  | _ => none

def tryDmySlash (cs : List Char) : Option PyDate :=
  match splitCh '/' cs with
  | [ds, ms, ys] => do
      let d ← parse2d 1 31 ds
      let m ← parse2d 1 12 ms
      let y ← parseY4 ys
      mkDate y m d
  | _ => none

def tryDbY (cs : List Char) : Option PyDate :=
  match splitCh '-' cs with
  | [ds, bs, ys] => do
      let d ← parse2d 1 31 ds
      let m ← parseMon bs
      let y ← parseY4 ys
      mkDate y m d
  | _ => none

def tryYmdSlash (cs : List Char) : Option PyDate :=
  match splitCh '/' cs with
  | [ys, ms, ds] => do
      let y ← parseY4 ys
      let m ← parse2d 1 12 ms
      let d ← parse2d 1 31 ds
      mkDate y m d
  | _ => none

def tryDby2 (cs : List Char) : Option PyDate :=
  match splitCh '-' cs with
  | [ds, bs, ys] => do
      let d ← parse2d 1 31 ds
      let m ← parseMon bs
      let y ← parseY2 ys
      mkDate y m d
  | _ => none

def tryDmy2 (cs : List Char) : Option PyDate :=
  match splitCh '-' cs with
  | [ds, ms, ys] => do
      let d ← parse2d 1 31 ds
      let m ← parse2d 1 12 ms
      let y ← parseY2 ys
      mkDate y m d
  | _ => none

/-- The yearless `"%d-%b"` format: strptime defaults the year to 1900 (so the
date must be valid in 1900, a non-leap year), then the code substitutes the
current calendar year. -/
def tryDb (currentYear : Nat) (cs : List Char) : Option PyDate :=
  match splitCh '-' cs with
  | [ds, bs] => do
      let d ← parse2d 1 31 ds
      let m ← parseMon bs
      let dt ← mkDate 1900 m d
      some { dt with year := currentYear }
  | _ => none

def pick : List (Option PyDate) → Option PyDate
  | [] => none
  | some d :: _ => some d
  | none :: rest => pick rest

/-- Model of `safe_date`: strip whitespace, reject empty input, then try the
eight formats in source order; the first success wins, otherwise `none`.
`currentYear` stands for `datetime.now().year`. -/
def safe_date (s : String) (currentYear : Nat) : Option PyDate :=
  let cs := pyStrip s.data
  if cs = [] then none
  else
    pick [tryYmd cs, tryDmy cs, tryDmySlash cs, tryDbY cs,
      tryYmdSlash cs, tryDby2 cs, tryDmy2 cs, tryDb currentYear cs]

/-! Rendering side (`strftime`): `%d`/`%m`/`%y` are zero-padded to two digits,
`%Y` prints the year without padding (four digits for years 1000-9999),
`%b` prints the capitalized three-letter month abbreviation. -/

def pad2 (n : Nat) : List Char := if n < 10 then ['0', digitChar n] else natDigits n

def abbrOf (m : Nat) : List Char :=
  match m with
  | 1 => ['J','a','n'] | 2 => ['F','e','b'] | 3 => ['M','a','r'] | 4 => ['A','p','r']
  | 5 => ['M','a','y'] | 6 => ['J','u','n'] | 7 => ['J','u','l'] | 8 => ['A','u','g']
  | 9 => ['S','e','p'] | 10 => ['O','c','t'] | 11 => ['N','o','v'] | _ => ['D','e','c']

/-- The eight supported date formats, in the order the source tries them. -/
inductive DateFmt where
  | ymd | dmy | dmySlash | dbY | ymdSlash | dby2 | dmy2 | db
deriving DecidableEq

def renderFmt (f : DateFmt) (d : PyDate) : List Char :=
  match f with
  | .ymd => natDigits d.year ++ '-' :: (pad2 d.month ++ '-' :: pad2 d.day)
  | .dmy => pad2 d.day ++ '-' :: (pad2 d.month ++ '-' :: natDigits d.year)
  | .dmySlash => pad2 d.day ++ '/' :: (pad2 d.month ++ '/' :: natDigits d.year)
  | .dbY => pad2 d.day ++ '-' :: (abbrOf d.month ++ '-' :: natDigits d.year)
  | .ymdSlash => natDigits d.year ++ '/' :: (pad2 d.month ++ '/' :: pad2 d.day)
  | .dby2 => pad2 d.day ++ '-' :: (abbrOf d.month ++ '-' :: pad2 (d.year % 100))
  | .dmy2 => pad2 d.day ++ '-' :: (pad2 d.month ++ '-' :: pad2 (d.year % 100))
  | .db => pad2 d.day ++ '-' :: abbrOf d.month

/-- A date is expressible in a format when rendering it in that format loses no
information: four-digit-year formats need a four-digit year, two-digit-year
formats a year in 1969-2068 (the `%y` pivot range), and the yearless format can
only denote dates of the current year. -/
def expressible (f : DateFmt) (currentYear : Nat) (d : PyDate) : Prop :=
  validYMD d.year d.month d.day = true ∧
  match f with
  | .ymd | .dmy | .dmySlash | .dbY | .ymdSlash => 1000 ≤ d.year ∧ d.year ≤ 9999
  | .dby2 | .dmy2 => 1969 ≤ d.year ∧ d.year ≤ 2068
  | .db => d.year = currentYear

theorem daysInMonth_le (y m : Nat) : daysInMonth y m ≤ 31 := by
  unfold daysInMonth
  split_ifs <;> omega

theorem validYMD_bounds (y m d : Nat) (h : validYMD y m d = true) :
    1 ≤ y ∧ y ≤ 9999 ∧ 1 ≤ m ∧ m ≤ 12 ∧ 1 ≤ d ∧ d ≤ daysInMonth y m := by
  simp only [validYMD, Bool.and_eq_true, decide_eq_true_eq] at h
  exact ⟨h.1.1.1.1.1, h.1.1.1.1.2, h.1.1.1.2, h.1.1.2, h.1.2, h.2⟩

theorem pad2_day : ∀ n < 32, 1 ≤ n → parse2d 1 31 (pad2 n) = some n := by decide

theorem pad2_mon : ∀ n < 13, 1 ≤ n → parse2d 1 12 (pad2 n) = some n := by decide

theorem pad2_y2 : ∀ v < 100,
    parseY2 (pad2 v) = some (if v ≤ 68 then 2000 + v else 1900 + v) := by decide

theorem abbr_mon : ∀ m < 13, 1 ≤ m → parseMon (abbrOf m) = some m := by decide

theorem parseY4_pad2 : ∀ n < 100, parseY4 (pad2 n) = none := by decide

theorem parseMon_pad2 : ∀ n < 100, parseMon (pad2 n) = none := by decide

theorem abbr_not_digits : ∀ m < 13, (abbrOf m).all isDig = false := by decide

theorem parse2d_abbr (m lo hi : Nat) (h : m < 13) : parse2d lo hi (abbrOf m) = none := by
  unfold parse2d
  rw [abbr_not_digits m h]
  simp

theorem parseY4_abbr (m : Nat) (h : m < 13) : parseY4 (abbrOf m) = none := by
  unfold parseY4
  rw [abbr_not_digits m h]
  simp

theorem parseY4_natDigits (y : Nat) (h1 : 1000 ≤ y) (h2 : y ≤ 9999) :
    parseY4 (natDigits y) = some y := by
  unfold parseY4
  rw [List.all_eq_true.mpr (natDigits_all_dig y), natDigits_length_four y h1 h2]
  simp [digitsVal_natDigits]

theorem parse2d_natDigits (y lo hi : Nat) (h1 : 1000 ≤ y) (h2 : y ≤ 9999) :
    parse2d lo hi (natDigits y) = none := by
  unfold parse2d
  rw [natDigits_length_four y h1 h2]
  simp

theorem monthNames_len : ∀ nm ∈ monthNames, nm.length = 3 := by decide

theorem findMonth_len (cs : List Char) (hlen : cs.length ≠ 3) :
    ∀ (k : Nat) (names : List (List Char)), (∀ nm ∈ names, nm.length = 3) →
      findMonth cs k names = none := by
  intro k names
  induction names generalizing k with
  | nil => intro _; rfl
  | cons nm rest ih =>
    intro hnm
    unfold findMonth
    have hne : ¬ cs = nm := by
      intro heq
      exact hlen (heq ▸ hnm nm (by simp))
    rw [if_neg hne]
    exact ih (k + 1) (fun x hx => hnm x (by simp [hx]))

theorem parseMon_len (cs : List Char) (hlen : cs.length ≠ 3) : parseMon cs = none := by
  unfold parseMon
  exact findMonth_len (cs.map Char.toLower) (by simpa using hlen) 1 monthNames monthNames_len

theorem parseMon_natDigits (y : Nat) (h1 : 1000 ≤ y) (h2 : y ≤ 9999) :
    parseMon (natDigits y) = none :=
  parseMon_len _ (by rw [natDigits_length_four y h1 h2]; omega)

theorem splitCh_ne_nil (sep : Char) (cs : List Char) : splitCh sep cs ≠ [] := by
  cases cs with
  | nil => simp [splitCh]
  | cons c cs =>
    unfold splitCh
    split <;> split_ifs <;> simp

theorem splitCh_no_sep (sep : Char) (cs : List Char) (h : ∀ c ∈ cs, (c == sep) = false) :
    splitCh sep cs = [cs] := by
  induction cs with
  | nil => rfl
  | cons c cs ih =>
    have hc := h c (by simp)
    have ih2 := ih (fun d hd => h d (by simp [hd]))
    simp [splitCh, ih2, hc]

theorem splitCh_append (sep : Char) (a b : List Char)
    (h : ∀ c ∈ a, (c == sep) = false) :
    splitCh sep (a ++ sep :: b) = a :: splitCh sep b := by
  induction a with
  | nil =>
    rcases List.exists_cons_of_ne_nil (splitCh_ne_nil sep b) with ⟨p, ps, hps⟩
    simp [splitCh, hps]
  | cons c a ih =>
    have hc := h c (by simp)
    have ih2 := ih (fun d hd => h d (by simp [hd]))
    have key : ∀ t, splitCh sep t = a :: splitCh sep b →
        splitCh sep (c :: t) = (c :: a) :: splitCh sep b := by
      intro t ht
      conv_lhs => unfold splitCh
      rw [ht]
      simp [hc]
    have hmain := key (a ++ sep :: b) ih2
    simpa [List.cons_append] using hmain

theorem isDig_beq_slash (c : Char) (h : isDig c = true) : (c == '/') = false := by
  apply beq_eq_false_iff_ne.mpr
  intro heq
  subst heq
  exact absurd h (by decide)

theorem mem_all_append {P : Char → Prop} {a b : List Char}
    (ha : ∀ c ∈ a, P c) (hb : ∀ c ∈ b, P c) : ∀ c ∈ a ++ b, P c := by
  intro c hc
  rcases List.mem_append.mp hc with hc | hc
  · exact ha c hc
  · exact hb c hc

theorem mem_all_cons {P : Char → Prop} {x : Char} {l : List Char}
    (hx : P x) (hl : ∀ c ∈ l, P c) : ∀ c ∈ x :: l, P c := by
  intro c hc
  rcases List.mem_cons.mp hc with hc | hc
  · exact hc ▸ hx
  · exact hl c hc

theorem pad2_all_dig : ∀ n < 100, (pad2 n).all isDig = true := by decide

theorem pad2_digs (n : Nat) (h : n < 100) : ∀ c ∈ pad2 n, isDig c = true := by
  have := pad2_all_dig n h
  rw [List.all_eq_true] at this
  exact this

theorem pad2_ne_nil (n : Nat) : pad2 n ≠ [] := by
  unfold pad2
  split
  · simp
  · exact natDigits_ne_nil n

theorem abbr_chars : ∀ m < 13,
    (abbrOf m).all (fun c => (!(c == '-')) && (!(c == '/')) && (!(isSpaceCh c))) = true := by
  decide

theorem abbr_no_dash (m : Nat) (h : m < 13) : ∀ c ∈ abbrOf m, (c == '-') = false := by
  intro c hc
  have hall := abbr_chars m h
  rw [List.all_eq_true] at hall
  have := hall c hc
  simp only [Bool.and_eq_true, Bool.not_eq_true'] at this
  exact this.1.1

theorem abbr_no_slash (m : Nat) (h : m < 13) : ∀ c ∈ abbrOf m, (c == '/') = false := by
  intro c hc
  have hall := abbr_chars m h
  rw [List.all_eq_true] at hall
  have := hall c hc
  simp only [Bool.and_eq_true, Bool.not_eq_true'] at this
  exact this.1.2

theorem abbr_no_ws (m : Nat) (h : m < 13) : ∀ c ∈ abbrOf m, isSpaceCh c = false := by
  intro c hc
  have hall := abbr_chars m h
  rw [List.all_eq_true] at hall
  have := hall c hc
  simp only [Bool.and_eq_true, Bool.not_eq_true'] at this
  exact this.2

theorem digs_no_dash {cs : List Char} (h : ∀ c ∈ cs, isDig c = true) :
    ∀ c ∈ cs, (c == '-') = false :=
  fun c hc => isDig_beq_dash c (h c hc)

theorem digs_no_slash {cs : List Char} (h : ∀ c ∈ cs, isDig c = true) :
    ∀ c ∈ cs, (c == '/') = false :=
  fun c hc => isDig_beq_slash c (h c hc)

theorem digs_no_ws {cs : List Char} (h : ∀ c ∈ cs, isDig c = true) :
    ∀ c ∈ cs, isSpaceCh c = false :=
  fun c hc => isDig_not_space c (h c hc)

theorem safe_date_of_parts (cs : List Char) (cy : Nat) (d : PyDate)
    (hws : ∀ c ∈ cs, isSpaceCh c = false) (hne : cs ≠ [])
    (hpick : pick [tryYmd cs, tryDmy cs, tryDmySlash cs, tryDbY cs,
      tryYmdSlash cs, tryDby2 cs, tryDmy2 cs, tryDb cy cs] = some d) :
    safe_date (String.mk cs) cy = some d := by
  unfold safe_date
  have hdata : (String.mk cs).data = cs := rfl
  rw [hdata, pyStrip_eq_self cs hws, if_neg hne]
  exact hpick

/-- C7 (amended): for each of the eight supported date formats and every date
expressible in that format, `safe_date` applied to the rendered date returns the
date itself, where for the yearless `"%d-%b"` format the current calendar year
is substituted into the result and the date must additionally be valid in the
parser's default year 1900 (a non-leap year) — the amendment forced by the
counterexample: Feb 29 of a leap current year renders as `"29-Feb"` but fails
to parse, because strptime validates it against 1900. -/
theorem safe_date_roundTrip (f : DateFmt) (cy : Nat) (d : PyDate)
    (hex : expressible f cy d)
    (hdb : f = DateFmt.db → d.day ≤ daysInMonth 1900 d.month) :
    safe_date (String.mk (renderFmt f d)) cy = some d := by
  obtain ⟨hv, hrest⟩ := hex
  obtain ⟨hy1, hy9, hm1, hm12, hd1, hdle⟩ := validYMD_bounds _ _ _ hv
  have hd31 : d.day ≤ 31 := le_trans hdle (daysInMonth_le _ _)
  have hmk : mkDate d.year d.month d.day = some d := by
    unfold mkDate
    rw [if_pos hv]
  have hdd := pad2_digs d.day (by omega)
  have hmm := pad2_digs d.month (by omega)
  have hyy := natDigits_all_dig d.year
  have hy100 := pad2_digs (d.year % 100) (by omega)
  cases f with
  | ymd =>
    obtain ⟨hya, hyb⟩ := hrest
    simp only [renderFmt]
    apply safe_date_of_parts
    · exact mem_all_append (digs_no_ws hyy) (mem_all_cons (by decide)
        (mem_all_append (digs_no_ws hmm) (mem_all_cons (by decide) (digs_no_ws hdd))))
    · intro hcontra
      rcases List.append_eq_nil.mp hcontra with ⟨h1, _⟩
      exact natDigits_ne_nil d.year h1
    · have hsplit : splitCh '-' (natDigits d.year ++ '-' :: (pad2 d.month ++ '-' :: pad2 d.day))
          = [natDigits d.year, pad2 d.month, pad2 d.day] := by
        rw [splitCh_append '-' _ _ (digs_no_dash hyy),
          splitCh_append '-' _ _ (digs_no_dash hmm),
          splitCh_no_sep '-' _ (digs_no_dash hdd)]
      have h1 : tryYmd (natDigits d.year ++ '-' :: (pad2 d.month ++ '-' :: pad2 d.day))
          = some d := by
        simp [tryYmd, hsplit, parseY4_natDigits d.year hya hyb,
          pad2_mon d.month (by omega) hm1, pad2_day d.day (by omega) hd1, hmk]
      simp [pick, h1]
  | dmy =>
    obtain ⟨hya, hyb⟩ := hrest
    simp only [renderFmt]
    apply safe_date_of_parts
    · exact mem_all_append (digs_no_ws hdd) (mem_all_cons (by decide)
        (mem_all_append (digs_no_ws hmm) (mem_all_cons (by decide) (digs_no_ws hyy))))
    · intro hcontra
      rcases List.append_eq_nil.mp hcontra with ⟨h1, _⟩
      exact pad2_ne_nil d.day h1
    · have hsplit : splitCh '-' (pad2 d.day ++ '-' :: (pad2 d.month ++ '-' :: natDigits d.year))
          = [pad2 d.day, pad2 d.month, natDigits d.year] := by
        rw [splitCh_append '-' _ _ (digs_no_dash hdd),
          splitCh_append '-' _ _ (digs_no_dash hmm),
          splitCh_no_sep '-' _ (digs_no_dash hyy)]
      have h1 : tryYmd (pad2 d.day ++ '-' :: (pad2 d.month ++ '-' :: natDigits d.year))
          = none := by
        simp [tryYmd, hsplit, parseY4_pad2 d.day (by omega)]
      have h2 : tryDmy (pad2 d.day ++ '-' :: (pad2 d.month ++ '-' :: natDigits d.year))
          = some d := by
        simp [tryDmy, hsplit, pad2_day d.day (by omega) hd1,
          pad2_mon d.month (by omega) hm1, parseY4_natDigits d.year hya hyb, hmk]
      simp [pick, h1, h2]
  | dmySlash =>
    obtain ⟨hya, hyb⟩ := hrest
    simp only [renderFmt]
    apply safe_date_of_parts
    · exact mem_all_append (digs_no_ws hdd) (mem_all_cons (by decide)
        (mem_all_append (digs_no_ws hmm) (mem_all_cons (by decide) (digs_no_ws hyy))))
    · intro hcontra
      rcases List.append_eq_nil.mp hcontra with ⟨h1, _⟩
      exact pad2_ne_nil d.day h1
    · have hnodash : ∀ c ∈ pad2 d.day ++ '/' :: (pad2 d.month ++ '/' :: natDigits d.year),
          (c == '-') = false :=
        mem_all_append (digs_no_dash hdd) (mem_all_cons (by decide)
          (mem_all_append (digs_no_dash hmm) (mem_all_cons (by decide) (digs_no_dash hyy))))
      have hsplitD := splitCh_no_sep '-' _ hnodash
      have hsplit : splitCh '/' (pad2 d.day ++ '/' :: (pad2 d.month ++ '/' :: natDigits d.year))
          = [pad2 d.day, pad2 d.month, natDigits d.year] := by
        rw [splitCh_append '/' _ _ (digs_no_slash hdd),
          splitCh_append '/' _ _ (digs_no_slash hmm),
          splitCh_no_sep '/' _ (digs_no_slash hyy)]
      have h1 : tryYmd (pad2 d.day ++ '/' :: (pad2 d.month ++ '/' :: natDigits d.year))
          = none := by
        simp [tryYmd, hsplitD]
      have h2 : tryDmy (pad2 d.day ++ '/' :: (pad2 d.month ++ '/' :: natDigits d.year))
          = none := by
        simp [tryDmy, hsplitD]
      have h3 : tryDmySlash (pad2 d.day ++ '/' :: (pad2 d.month ++ '/' :: natDigits d.year))
          = some d := by
        simp [tryDmySlash, hsplit, pad2_day d.day (by omega) hd1,
          pad2_mon d.month (by omega) hm1, parseY4_natDigits d.year hya hyb, hmk]
      simp [pick, h1, h2, h3]
  | dbY =>
    obtain ⟨hya, hyb⟩ := hrest
    simp only [renderFmt]
    apply safe_date_of_parts
    · exact mem_all_append (digs_no_ws hdd) (mem_all_cons (by decide)
        (mem_all_append (abbr_no_ws d.month (by omega)) (mem_all_cons (by decide) (digs_no_ws hyy))))
    · intro hcontra
      rcases List.append_eq_nil.mp hcontra with ⟨h1, _⟩
      exact pad2_ne_nil d.day h1
    · have hsplit : splitCh '-' (pad2 d.day ++ '-' :: (abbrOf d.month ++ '-' :: natDigits d.year))
          = [pad2 d.day, abbrOf d.month, natDigits d.year] := by
        rw [splitCh_append '-' _ _ (digs_no_dash hdd),
          splitCh_append '-' _ _ (abbr_no_dash d.month (by omega)),
          splitCh_no_sep '-' _ (digs_no_dash hyy)]
      have hnoslash : ∀ c ∈ pad2 d.day ++ '-' :: (abbrOf d.month ++ '-' :: natDigits d.year),
          (c == '/') = false :=
        mem_all_append (digs_no_slash hdd) (mem_all_cons (by decide)
          (mem_all_append (abbr_no_slash d.month (by omega))
            (mem_all_cons (by decide) (digs_no_slash hyy))))
      have hsplitS := splitCh_no_sep '/' _ hnoslash
      have h1 : tryYmd (pad2 d.day ++ '-' :: (abbrOf d.month ++ '-' :: natDigits d.year))
          = none := by
        simp [tryYmd, hsplit, parseY4_pad2 d.day (by omega)]
      have h2 : tryDmy (pad2 d.day ++ '-' :: (abbrOf d.month ++ '-' :: natDigits d.year))
          = none := by
        simp [tryDmy, hsplit, pad2_day d.day (by omega) hd1,
          parse2d_abbr d.month 1 12 (by omega)]
      have h3 : tryDmySlash (pad2 d.day ++ '-' :: (abbrOf d.month ++ '-' :: natDigits d.year))
          = none := by
        simp [tryDmySlash, hsplitS]
      have h4 : tryDbY (pad2 d.day ++ '-' :: (abbrOf d.month ++ '-' :: natDigits d.year))
          = some d := by
        simp [tryDbY, hsplit, pad2_day d.day (by omega) hd1,
          abbr_mon d.month (by omega) hm1, parseY4_natDigits d.year hya hyb, hmk]
      simp [pick, h1, h2, h3, h4]
  | ymdSlash =>
    obtain ⟨hya, hyb⟩ := hrest
    simp only [renderFmt]
    apply safe_date_of_parts
    · exact mem_all_append (digs_no_ws hyy) (mem_all_cons (by decide)
        (mem_all_append (digs_no_ws hmm) (mem_all_cons (by decide) (digs_no_ws hdd))))
    · intro hcontra
      rcases List.append_eq_nil.mp hcontra with ⟨h1, _⟩
      exact natDigits_ne_nil d.year h1
    · have hnodash : ∀ c ∈ natDigits d.year ++ '/' :: (pad2 d.month ++ '/' :: pad2 d.day),
          (c == '-') = false :=
        mem_all_append (digs_no_dash hyy) (mem_all_cons (by decide)
          (mem_all_append (digs_no_dash hmm) (mem_all_cons (by decide) (digs_no_dash hdd))))
      have hsplitD := splitCh_no_sep '-' _ hnodash
      have hsplit : splitCh '/' (natDigits d.year ++ '/' :: (pad2 d.month ++ '/' :: pad2 d.day))
          = [natDigits d.year, pad2 d.month, pad2 d.day] := by
        rw [splitCh_append '/' _ _ (digs_no_slash hyy),
          splitCh_append '/' _ _ (digs_no_slash hmm),
          splitCh_no_sep '/' _ (digs_no_slash hdd)]
      have h1 : tryYmd (natDigits d.year ++ '/' :: (pad2 d.month ++ '/' :: pad2 d.day))
          = none := by
        simp [tryYmd, hsplitD]
      have h2 : tryDmy (natDigits d.year ++ '/' :: (pad2 d.month ++ '/' :: pad2 d.day))
          = none := by
        simp [tryDmy, hsplitD]
      have h3 : tryDmySlash (natDigits d.year ++ '/' :: (pad2 d.month ++ '/' :: pad2 d.day))
          = none := by
        simp [tryDmySlash, hsplit, parse2d_natDigits d.year 1 31 hya hyb]
      have h4 : tryDbY (natDigits d.year ++ '/' :: (pad2 d.month ++ '/' :: pad2 d.day))
          = none := by
        simp [tryDbY, hsplitD]
      have h5 : tryYmdSlash (natDigits d.year ++ '/' :: (pad2 d.month ++ '/' :: pad2 d.day))
          = some d := by
        simp [tryYmdSlash, hsplit, parseY4_natDigits d.year hya hyb,
          pad2_mon d.month (by omega) hm1, pad2_day d.day (by omega) hd1, hmk]
      simp [pick, h1, h2, h3, h4, h5]
  | dby2 =>
    obtain ⟨hya, hyb⟩ := hrest
    simp only [renderFmt]
    apply safe_date_of_parts
    · exact mem_all_append (digs_no_ws hdd) (mem_all_cons (by decide)
        (mem_all_append (abbr_no_ws d.month (by omega)) (mem_all_cons (by decide) (digs_no_ws hy100))))
    · intro hcontra
      rcases List.append_eq_nil.mp hcontra with ⟨h1, _⟩
      exact pad2_ne_nil d.day h1
    · have hsplit : splitCh '-' (pad2 d.day ++ '-' :: (abbrOf d.month ++ '-' :: pad2 (d.year % 100)))
          = [pad2 d.day, abbrOf d.month, pad2 (d.year % 100)] := by
        rw [splitCh_append '-' _ _ (digs_no_dash hdd),
          splitCh_append '-' _ _ (abbr_no_dash d.month (by omega)),
          splitCh_no_sep '-' _ (digs_no_dash hy100)]
      have hnoslash : ∀ c ∈ pad2 d.day ++ '-' :: (abbrOf d.month ++ '-' :: pad2 (d.year % 100)),
          (c == '/') = false :=
        mem_all_append (digs_no_slash hdd) (mem_all_cons (by decide)
          (mem_all_append (abbr_no_slash d.month (by omega))
            (mem_all_cons (by decide) (digs_no_slash hy100))))
      have hsplitS := splitCh_no_sep '/' _ hnoslash
      have hy2v := pad2_y2 (d.year % 100) (by omega)
      have hmap : (if d.year % 100 ≤ 68 then 2000 + d.year % 100 else 1900 + d.year % 100)
          = d.year := by split_ifs <;> omega
      have h1 : tryYmd (pad2 d.day ++ '-' :: (abbrOf d.month ++ '-' :: pad2 (d.year % 100)))
          = none := by
        simp [tryYmd, hsplit, parseY4_pad2 d.day (by omega)]
      have h2 : tryDmy (pad2 d.day ++ '-' :: (abbrOf d.month ++ '-' :: pad2 (d.year % 100)))
          = none := by
        simp [tryDmy, hsplit, pad2_day d.day (by omega) hd1,
          parse2d_abbr d.month 1 12 (by omega)]
      have h3 : tryDmySlash (pad2 d.day ++ '-' :: (abbrOf d.month ++ '-' :: pad2 (d.year % 100)))
          = none := by
        simp [tryDmySlash, hsplitS]
      have h4 : tryDbY (pad2 d.day ++ '-' :: (abbrOf d.month ++ '-' :: pad2 (d.year % 100)))
          = none := by
        simp [tryDbY, hsplit, pad2_day d.day (by omega) hd1,
          abbr_mon d.month (by omega) hm1, parseY4_pad2 (d.year % 100) (by omega)]
      have h5 : tryYmdSlash (pad2 d.day ++ '-' :: (abbrOf d.month ++ '-' :: pad2 (d.year % 100)))
          = none := by
        simp [tryYmdSlash, hsplitS]
      have h6 : tryDby2 (pad2 d.day ++ '-' :: (abbrOf d.month ++ '-' :: pad2 (d.year % 100)))
          = some d := by
        simp [tryDby2, hsplit, pad2_day d.day (by omega) hd1,
          abbr_mon d.month (by omega) hm1, hy2v, hmap, hmk]
      simp [pick, h1, h2, h3, h4, h5, h6]
  | dmy2 =>
    obtain ⟨hya, hyb⟩ := hrest
    simp only [renderFmt]
    apply safe_date_of_parts
    · exact mem_all_append (digs_no_ws hdd) (mem_all_cons (by decide)
        (mem_all_append (digs_no_ws hmm) (mem_all_cons (by decide) (digs_no_ws hy100))))
    · intro hcontra
      rcases List.append_eq_nil.mp hcontra with ⟨h1, _⟩
      exact pad2_ne_nil d.day h1
    · have hsplit : splitCh '-' (pad2 d.day ++ '-' :: (pad2 d.month ++ '-' :: pad2 (d.year % 100)))
          = [pad2 d.day, pad2 d.month, pad2 (d.year % 100)] := by
        rw [splitCh_append '-' _ _ (digs_no_dash hdd),
          splitCh_append '-' _ _ (digs_no_dash hmm),
          splitCh_no_sep '-' _ (digs_no_dash hy100)]
      have hnoslash : ∀ c ∈ pad2 d.day ++ '-' :: (pad2 d.month ++ '-' :: pad2 (d.year % 100)),
          (c == '/') = false :=
        mem_all_append (digs_no_slash hdd) (mem_all_cons (by decide)
          (mem_all_append (digs_no_slash hmm) (mem_all_cons (by decide) (digs_no_slash hy100))))
      have hsplitS := splitCh_no_sep '/' _ hnoslash
      have hy2v := pad2_y2 (d.year % 100) (by omega)
      have hmap : (if d.year % 100 ≤ 68 then 2000 + d.year % 100 else 1900 + d.year % 100)
          = d.year := by split_ifs <;> omega
      have h1 : tryYmd (pad2 d.day ++ '-' :: (pad2 d.month ++ '-' :: pad2 (d.year % 100)))
          = none := by
        simp [tryYmd, hsplit, parseY4_pad2 d.day (by omega)]
      have h2 : tryDmy (pad2 d.day ++ '-' :: (pad2 d.month ++ '-' :: pad2 (d.year % 100)))
          = none := by
        simp [tryDmy, hsplit, pad2_day d.day (by omega) hd1,
          pad2_mon d.month (by omega) hm1, parseY4_pad2 (d.year % 100) (by omega)]
      have h3 : tryDmySlash (pad2 d.day ++ '-' :: (pad2 d.month ++ '-' :: pad2 (d.year % 100)))
          = none := by
        simp [tryDmySlash, hsplitS]
      have h4 : tryDbY (pad2 d.day ++ '-' :: (pad2 d.month ++ '-' :: pad2 (d.year % 100)))
          = none := by
        simp [tryDbY, hsplit, pad2_day d.day (by omega) hd1,
          parseMon_pad2 d.month (by omega)]
      have h5 : tryYmdSlash (pad2 d.day ++ '-' :: (pad2 d.month ++ '-' :: pad2 (d.year % 100)))
          = none := by
        simp [tryYmdSlash, hsplitS]
      have h6 : tryDby2 (pad2 d.day ++ '-' :: (pad2 d.month ++ '-' :: pad2 (d.year % 100)))
          = none := by
        simp [tryDby2, hsplit, pad2_day d.day (by omega) hd1,
          parseMon_pad2 d.month (by omega)]
      have h7 : tryDmy2 (pad2 d.day ++ '-' :: (pad2 d.month ++ '-' :: pad2 (d.year % 100)))
          = some d := by
        simp [tryDmy2, hsplit, pad2_day d.day (by omega) hd1,
          pad2_mon d.month (by omega) hm1, hy2v, hmap, hmk]
      simp [pick, h1, h2, h3, h4, h5, h6, h7]
  | db =>
    cases d with
    | mk y0 m0 d0 =>
    dsimp only at hv hy1 hy9 hm1 hm12 hd1 hdle hd31 hmk hdd hmm hyy hy100 hdb hrest
    subst hrest
    simp only [renderFmt]
    apply safe_date_of_parts
    · exact mem_all_append (digs_no_ws hdd) (mem_all_cons (by decide)
        (abbr_no_ws m0 (by omega)))
    · intro hcontra
      rcases List.append_eq_nil.mp hcontra with ⟨h1, _⟩
      exact pad2_ne_nil d0 h1
    · have hsplit : splitCh '-' (pad2 d0 ++ '-' :: abbrOf m0) = [pad2 d0, abbrOf m0] := by
        rw [splitCh_append '-' _ _ (digs_no_dash hdd),
          splitCh_no_sep '-' _ (abbr_no_dash m0 (by omega))]
      have hnoslash : ∀ c ∈ pad2 d0 ++ '-' :: abbrOf m0, (c == '/') = false :=
        mem_all_append (digs_no_slash hdd) (mem_all_cons (by decide)
          (abbr_no_slash m0 (by omega)))
      have hsplitS := splitCh_no_sep '/' _ hnoslash
      have h1 : tryYmd (pad2 d0 ++ '-' :: abbrOf m0) = none := by
        simp [tryYmd, hsplit]
      have h2 : tryDmy (pad2 d0 ++ '-' :: abbrOf m0) = none := by
        simp [tryDmy, hsplit]
      have h3 : tryDmySlash (pad2 d0 ++ '-' :: abbrOf m0) = none := by
        simp [tryDmySlash, hsplitS]
      have h4 : tryDbY (pad2 d0 ++ '-' :: abbrOf m0) = none := by
        simp [tryDbY, hsplit]
      have h5 : tryYmdSlash (pad2 d0 ++ '-' :: abbrOf m0) = none := by
        simp [tryYmdSlash, hsplitS]
      have h6 : tryDby2 (pad2 d0 ++ '-' :: abbrOf m0) = none := by
        simp [tryDby2, hsplit]
      have h7 : tryDmy2 (pad2 d0 ++ '-' :: abbrOf m0) = none := by
        simp [tryDmy2, hsplit]
      have hv1900 : validYMD 1900 m0 d0 = true := by
        simp only [validYMD, Bool.and_eq_true, decide_eq_true_eq]
        exact ⟨⟨⟨⟨⟨by omega, by omega⟩, by omega⟩, by omega⟩, by omega⟩, hdb rfl⟩
      have hmk1900 : mkDate 1900 m0 d0 = some ⟨1900, m0, d0⟩ := by
        unfold mkDate
        rw [if_pos hv1900]
      have h8 : tryDb y0 (pad2 d0 ++ '-' :: abbrOf m0) = some ⟨y0, m0, d0⟩ := by
        simp [tryDb, hsplit, pad2_day d0 (by omega) hd1,
          abbr_mon m0 (by omega) hm1, hmk1900]
      simp [pick, h1, h2, h3, h4, h5, h6, h7, h8]

/-- Witness for C7: the `"%d-%m-%Y"` format round-trips 3 Feb 2001. -/
theorem safe_date_roundTrip_witness :
    safe_date "03-02-2001" 2025 = some ⟨2001, 2, 3⟩ := by
  have h := safe_date_roundTrip .dmy 2025 ⟨2001, 2, 3⟩ ⟨by decide, by decide, by decide⟩
    (fun hcontra => absurd hcontra (by decide))
  have heq : String.mk (renderFmt .dmy ⟨2001, 2, 3⟩) = "03-02-2001" := by decide
  rw [heq] at h
  exact h

/-- C7 counterexample: 29 Feb 2024 is expressible in the yearless `"%d-%b"`
format (it renders as `"29-Feb"`), yet with current year 2024 `safe_date`
returns `none`, because strptime validates the day against its default year
1900, which is not a leap year.  So the per-format round trip fails as
claimed. -/
theorem safe_date_claim_counterexample :
    expressible DateFmt.db 2024 ⟨2024, 2, 29⟩
    ∧ renderFmt DateFmt.db ⟨2024, 2, 29⟩ = "29-Feb".data
    ∧ safe_date "29-Feb" 2024 = none :=
  ⟨⟨by decide, by decide⟩, by decide, by decide⟩

/-! ### Model of `api_retry` (finance_app.py lines 111-120)

The wrapped call is modelled by the outcome of each attempt (`f k` is what the
k-th call, 0-based, does).  `api_retry` returns the final outcome together with
the number of calls made and the list of back-off sleeps (in seconds, base
delay 1.5). -/

inductive CallRes (α : Type) where
  | ok (a : α)
  | err (rateLimited : Bool)
deriving DecidableEq

/-- The `for i in range(5)` loop: on success return; on a rate-limit (`"429"`)
failure sleep `(i+1)*1.5` and retry; on any other failure re-raise.  After the
loop, one final unguarded call. -/
def apiRetryGo {α : Type} (f : Nat → CallRes α) : Nat → Nat → List ℚ → CallRes α × Nat × List ℚ
  | k, 0, sleeps => (f k, k + 1, sleeps)
  | k, left + 1, sleeps =>
    match f k with
    | .ok a => (.ok a, k + 1, sleeps)
    | .err true => apiRetryGo f (k + 1) left (sleeps ++ [((k : ℚ) + 1) * (3 / 2)])
    | .err false => (.err false, k + 1, sleeps)

def api_retry {α : Type} (f : Nat → CallRes α) : CallRes α × Nat × List ℚ :=
  apiRetryGo f 0 5 []

/-- C4: a rate-limited failure is retried up to 5 times, attempt i (1-based)
sleeping i × 1.5; after the 5 rate-limited attempts a single final call is made
and its outcome — success or failure — is returned as-is (6 calls in total, no
distinct retry-exhaustion error); a non-rate-limit failure propagates
immediately at the attempt where it occurs; a success returns immediately. -/
theorem api_retry_spec {α : Type} (f : Nat → CallRes α) :
    ((∀ i, i < 5 → f i = .err true) →
      api_retry f = (f 5, 6, [3 / 2, 3, 9 / 2, 6, 15 / 2]))
    ∧ (∀ j, j < 5 → (∀ i, i < j → f i = .err true) → f j = .err false →
      api_retry f = (.err false, j + 1, (List.range j).map (fun i => ((i : ℚ) + 1) * (3 / 2))))
    ∧ (∀ j a, j < 5 → (∀ i, i < j → f i = .err true) → f j = .ok a →
      api_retry f = (.ok a, j + 1, (List.range j).map (fun i => ((i : ℚ) + 1) * (3 / 2)))) := by
  refine ⟨?_, ?_, ?_⟩
  · intro h
    simp only [api_retry, apiRetryGo, h 0 (by omega), h 1 (by omega), h 2 (by omega),
      h 3 (by omega), h 4 (by omega)]
    norm_num
  · intro j hj h hf
    interval_cases j <;>
      simp_all [api_retry, apiRetryGo, List.range_succ]
  · intro j a hj h hf
    interval_cases j <;>
      simp_all [api_retry, apiRetryGo, List.range_succ]

/-- Witness for C4: with every attempt rate-limited, six calls are made, the
back-offs are 1.5, 3, 4.5, 6, 7.5, and the final attempt's failure is returned
as-is. -/
theorem api_retry_spec_witness :
    api_retry (fun _ => (CallRes.err true : CallRes Unit))
      = (.err true, 6, [3 / 2, 3, 9 / 2, 6, 15 / 2]) :=
  (api_retry_spec (fun _ => (CallRes.err true : CallRes Unit))).1 (fun _ _ => rfl)

/-! ### Model of the Google-Sheets layer (finance_app.py lines 129-297, 353-433)

A row is an association list from column names to cell values (all cells are
modelled as strings, matching the string comparisons the source performs).
Remote side effects are recorded as a trace of `RCall`s. -/

abbrev Row := List (String × String)

/-- Cell access for pandas-style `row[col]` lookups (missing column: empty). -/
def cell (r : Row) (c : String) : String := (List.lookup c r).getD ""

/-- Model of Python `str(row.get(col))` on a `get_all_records` dict: a missing
key gives `None`, rendered by `str` as `"None"`. -/
def pyGetStr (r : Row) (c : String) : String :=
  match List.lookup c r with
  | some v => v
  | none => "None"

inductive RCall where
  | read (table : String)
  | deleteRowAt (table : String) (rowIndex : Nat)
  | clearCache
  | replaceAll (table : String) (rows : List Row)
deriving DecidableEq

/-- First index (0-based) whose row satisfies the predicate. -/
def findIdxMatch (p : Row → Bool) : List Row → Option Nat
  | [] => none
  | r :: rest => if p r then some 0 else (findIdxMatch p rest).map (· + 1)

/-- Model of `delete_row_by_id` (lines 189-207): re-read the raw table, locate
the first 0-based record whose `ID` string-equals `id_val`, delete the
positional row `index + 2` (1-based rows, header in row 1) and clear the cache;
if nothing matches, return failure having issued only the read. -/
def delete_row_by_id (table : String) (rows : List Row) (idv : String) :
    Bool × List RCall × List Row :=
  match findIdxMatch (fun r => pyGetStr r "ID" == idv) rows with
  | some i => (true, [.read table, .deleteRowAt table (i + 2), .clearCache], rows.eraseIdx i)
  | none => (false, [.read table], rows)

/-- Model of `update_full_sheet` (lines 162-171): clear the sheet, write header
and data rows, clear the cache.  Every exception is caught internally
(`st.error`) and nothing is reported back — the function has no success value.
`remoteOk` says whether the remote calls succeed; on failure the cache is not
cleared. -/
def update_full_sheet (table : String) (rows : List Row) (remoteOk : Bool) : List RCall :=
  if remoteOk then [.replaceAll table rows, .clearCache]
  else [.replaceAll table rows]

/-- Replace the value of a column in a row (the column is present in the rows
this is applied to; a missing column is appended). -/
def setField : Row → String → String → Row
  | [], c, v => [(c, v)]
  | (c0, v0) :: rest, c, v =>
    if c0 = c then (c, v) :: rest else (c0, v0) :: setField rest c v

/-- `for col, val in updated_dict.items(): df_current.at[idx, col] = val` -/
def applyPatch (r : Row) (patch : List (String × String)) : Row :=
  patch.foldl (fun acc p => setField acc p.1 p.2) r

/-- Model of `update_row_by_id` (lines 178-187): find the first row whose `ID`
string-equals `id_val`; if none, return `false`; otherwise patch that row in
memory, hand the whole table to `update_full_sheet`, and return `true` —
regardless of whether the remote replace succeeded.  Result: (returned boolean,
calls issued, replacement payload). -/
def update_row_by_id (table : String) (rows : List Row) (idv : String)
    (patch : List (String × String)) (remoteOk : Bool) :
    Bool × List RCall × List Row :=
  match findIdxMatch (fun r => cell r "ID" == idv) rows with
  | none => (false, [], rows)
  | some i =>
    let patched := rows.set i (applyPatch (rows.getD i []) patch)
    (true, update_full_sheet table patched remoteOk, patched)

/-- One save cycle of the editable grid (lines 271-297): `df` is the collection
as last loaded, `edited` the locally edited copy where each row carries its
`Delete` flag, `remote` the current remote table.  Flagged rows are deleted by
ID one at a time; then, if the edited content (flag column dropped) differs
from `df`, a full-table replace with that content is issued. -/
def gridSave (table : String) (df : List Row) (edited : List (Row × Bool))
    (remote : List Row) : List RCall × List Row :=
  let toDelete := (edited.filter (fun e => e.2)).map (fun e => e.1)
  let delRes := toDelete.foldl
    (fun (acc : List RCall × List Row) r =>
      let res := delete_row_by_id table acc.2 (pyGetStr r "ID")
      (acc.1 ++ res.2.1, res.2.2))
    ([], remote)
  let finalDf := edited.map (fun e => e.1)
  if finalDf = df then delRes
  else (delRes.1 ++ update_full_sheet table finalDf true, finalDf)

/-- The `(CardID, Year, Month)` filter used by both the statement lookup and
the payment-history lookup in `render_credit_cards` (and by the statement
deduplication on save). -/
def periodMatch (cardId year month : String) (r : Row) : Bool :=
  cell r "CardID" == cardId && cell r "Year" == year && cell r "Month" == month

def mkStatementRow (cardId year month stmtDate billed unbilled unbilledDate paid dueDate :
    String) : Row :=
  [("CardID", cardId), ("Year", year), ("Month", month), ("StmtDate", stmtDate),
   ("Billed", billed), ("Unbilled", unbilled), ("UnbilledDate", unbilledDate),
   ("Paid", paid), ("DueDate", dueDate)]

/-- Model of the Save Statement handler (lines 420-433): drop every existing
row for this `(CardID, Year, Month)` triple, then append the single new row;
the result is handed to `update_full_sheet`. -/
def saveStatement (stmts : List Row) (cardId year month stmtDate billed unbilled
    unbilledDate paid dueDate : String) : List Row :=
  stmts.filter (fun r => !(periodMatch cardId year month r))
    ++ [mkStatementRow cardId year month stmtDate billed unbilled unbilledDate paid dueDate]

structure CardDue where
  billed : ℚ
  paid : ℚ
  remaining : ℚ
deriving DecidableEq

/-- Model of the per-card reconciliation in `render_credit_cards` (lines
353-371): billed comes from the first Statement row for the period; paid is the
sum of the matching Card_Payments ledger rows when any exist, else the
Statement's stale `Paid` field; remaining is clamped at zero. -/
def cardDue (stmts cpays : List Row) (cardId year month : String) : CardDue :=
  let hist := cpays.filter (periodMatch cardId year month)
  let stmtMatch := stmts.filter (periodMatch cardId year month)
  match stmtMatch with
  | [] => { billed := 0, paid := 0, remaining := 0 }
  | r :: _ =>
    let billed := safe_float (cell r "Billed")
    let calcPaid := (hist.map (fun h => safe_float (cell h "Amount"))).sum
    let paid := if hist = [] then safe_float (cell r "Paid") else calcPaid
    { billed := billed, paid := paid, remaining := max 0 (billed - paid) }

/-- The per-table required column schema of `get_df` (lines 131-142). -/
def required_cols : List (String × List String) := [
  ("Cards", ["ID", "Name", "Limit", "GraceDays", "MatchCode"]),
  ("Statements", ["CardID", "Year", "Month", "Billed", "Paid", "Unbilled", "UnbilledDate",
    "StmtDate", "DueDate"]),
  ("Card_Payments", ["ID", "CardID", "Year", "Month", "Date", "Amount", "Note"]),
  ("Loans", ["ID", "Source", "Type", "Category", "Principal", "EMI", "Tenure", "StartDate",
    "Outstanding", "Status", "DueDay", "MatchCode"]),
  ("Loan_Repayments", ["ID", "LoanID", "PaymentDate", "Amount", "Type"]),
  ("Active_EMIs", ["ID", "CardID", "Item", "Beneficiary", "TotalVal", "MonthlyEMI", "Start",
    "Tenure", "Status"]),
  ("EMI_Log", ["ID", "EMI_ID", "Date", "Month", "Year", "Amount"]),
  ("Banks", ["ID", "Name", "Type", "AccNo", "MatchCode"]),
  ("Bank_Balances", ["BankID", "Year", "Month", "Balance"]),
  ("Transactions", ["ID", "Date", "Year", "Month", "Type", "Category", "Amount", "Notes",
    "SourceAccount"])]

structure Df where
  cols : List String
  rows : List Row
deriving DecidableEq

/-- What the cached fetch of a table can produce: records, a
`WorksheetNotFound`, or any other exception. -/
inductive FetchResult where
  | fetched (rows : List Row)
  | worksheetNotFound
  | otherFailure
deriving DecidableEq

/-- Column union of a record list in first-appearance order
(`pd.DataFrame(list_of_dicts)`). -/
def addCols (acc : List String) : List String → List String
  | [] => acc
  | c :: rest => if acc.contains c then addCols acc rest else addCols (acc ++ [c]) rest

def recordCols (rows : List Row) : List String :=
  rows.foldl (fun acc r => addCols acc (r.map (fun p => p.1))) []

/-- Model of `get_df` (lines 129-160): build a frame from the fetched records
and enforce the required schema — an empty fetch yields an empty frame with the
full schema, and each missing required column is materialized with `""`.
`WorksheetNotFound` yields an empty frame with the full schema; any other
failure yields a frame with no columns at all (`pd.DataFrame()`).  The function
is total: it never raises. -/
def get_df (name : String) (fetch : FetchResult) : Df :=
  match fetch with
  | .fetched data =>
    let df : Df := ⟨recordCols data, data⟩
    match List.lookup name required_cols with
    | some req =>
      if df.rows = [] then ⟨req, []⟩
      else
        let missing := req.filter (fun c => !(df.cols.contains c))
        ⟨df.cols ++ missing, df.rows.map (fun r => r ++ missing.map (fun c => (c, "")))⟩
    | none => df
  | .worksheetNotFound => ⟨(List.lookup name required_cols).getD [], []⟩
  | .otherFailure => ⟨[], []⟩

theorem findIdxMatch_none (p : Row → Bool) (rows : List Row)
    (h : ∀ r ∈ rows, p r = false) : findIdxMatch p rows = none := by
  induction rows with
  | nil => rfl
  | cons r rest ih =>
    simp [findIdxMatch, h r (by simp), ih (fun x hx => h x (by simp [hx]))]

theorem findIdxMatch_eq_none (p : Row → Bool) (rows : List Row)
    (h : findIdxMatch p rows = none) : ∀ r ∈ rows, p r = false := by
  induction rows with
  | nil => intro r hr; cases hr
  | cons x xs ih =>
    intro r hr
    unfold findIdxMatch at h
    by_cases hx : p x = true
    · simp [hx] at h
    · simp only [Bool.not_eq_true] at hx
      simp only [hx, Bool.false_eq_true, if_false, Option.map_eq_none'] at h
      rcases List.mem_cons.mp hr with hr | hr
      · subst hr; exact hx
      · exact ih h r hr

theorem findIdxMatch_first (p : Row → Bool) (pre : List Row) (r : Row) (post : List Row)
    (hpre : ∀ x ∈ pre, p x = false) (hr : p r = true) :
    findIdxMatch p (pre ++ r :: post) = some pre.length := by
  induction pre with
  | nil => simp [findIdxMatch, hr]
  | cons x xs ih =>
    simp [findIdxMatch, hpre x (by simp), ih (fun y hy => hpre y (by simp [hy]))]

theorem eraseIdx_append_len (pre : List Row) (r : Row) (post : List Row) :
    (pre ++ r :: post).eraseIdx pre.length = pre ++ post := by
  induction pre with
  | nil => rfl
  | cons x xs ih => simp [List.eraseIdx, ih]

theorem getD_append_len (pre : List Row) (r : Row) (post : List Row) :
    (pre ++ r :: post).getD pre.length [] = r := by
  induction pre with
  | nil => rfl
  | cons x xs ih => simpa using ih

theorem set_append_len (pre : List Row) (r x : Row) (post : List Row) :
    (pre ++ r :: post).set pre.length x = pre ++ x :: post := by
  induction pre with
  | nil => rfl
  | cons y ys ih => simp [List.set, ih]

/-- C6: `deleteByID` re-reads the table; if the first 0-based record whose `ID`
string-matches sits below `pre`, it issues exactly one positional delete at
row `pre.length + 2` (1-based rows, header in row 1), clears the cache, removes
that record and returns success; if no record matches, it returns failure
having issued nothing beyond the initial read — no delete, no cache
invalidation — and the table is untouched. -/
theorem delete_row_by_id_spec (table idv : String) :
    (∀ rows : List Row, (∀ r ∈ rows, pyGetStr r "ID" ≠ idv) →
      delete_row_by_id table rows idv = (false, [.read table], rows))
    ∧ (∀ (pre : List Row) (r : Row) (post : List Row),
        (∀ x ∈ pre, pyGetStr x "ID" ≠ idv) → pyGetStr r "ID" = idv →
        delete_row_by_id table (pre ++ r :: post) idv
          = (true, [.read table, .deleteRowAt table (pre.length + 2), .clearCache],
              pre ++ post)) := by
  constructor
  · intro rows h
    unfold delete_row_by_id
    rw [findIdxMatch_none _ _ (fun r hr => by simp [h r hr])]
  · intro pre r post hpre hr
    unfold delete_row_by_id
    rw [findIdxMatch_first _ pre r post (fun x hx => by simp [hpre x hx]) (by simp [hr])]
    simp only [eraseIdx_append_len]

/-- Witness for C6: deleting ID 2 out of three rows issues the positional
delete at row 3 and returns success; deleting a nonexistent ID returns failure
with only the read issued. -/
theorem delete_row_by_id_spec_witness :
    delete_row_by_id "Cards" [[("ID", "1")], [("ID", "2")], [("ID", "3")]] "2"
      = (true, [.read "Cards", .deleteRowAt "Cards" 3, .clearCache],
          [[("ID", "1")], [("ID", "3")]])
    ∧ delete_row_by_id "Cards" [[("ID", "1")]] "9" = (false, [.read "Cards"], [[("ID", "1")]]) := by
  constructor
  · have h := (delete_row_by_id_spec "Cards" "2").2 [[("ID", "1")]] [("ID", "2")]
      [[("ID", "3")]] (by decide) (by decide)
    simpa using h
  · exact (delete_row_by_id_spec "Cards" "9").1 [[("ID", "1")]] (by decide)

/-- C9: whenever at least one row's `ID` string-matches, `updateByID` returns
`true`, and the returned boolean does not depend on whether the remote
full-table replace succeeds — `update_full_sheet` catches every failure
internally and reports nothing back, so the result only reflects whether a
matching row was found. -/
theorem update_row_by_id_spec (table idv : String) (patch : List (String × String)) :
    (∀ (rows : List Row) (remoteOk : Bool),
      (∃ r ∈ rows, cell r "ID" = idv) →
      (update_row_by_id table rows idv patch remoteOk).1 = true)
    ∧ (∀ (rows : List Row) (remoteOk : Bool),
      (update_row_by_id table rows idv patch remoteOk).1
        = (update_row_by_id table rows idv patch true).1) := by
  constructor
  · rintro rows remoteOk ⟨r, hr, hid⟩
    unfold update_row_by_id
    cases hfind : findIdxMatch (fun r => cell r "ID" == idv) rows with
    | some i => rfl
    | none =>
      have := findIdxMatch_eq_none _ rows hfind r hr
      simp [hid] at this
  · intro rows remoteOk
    unfold update_row_by_id
    cases hfind : findIdxMatch (fun r => cell r "ID" == idv) rows <;> rfl

/-- Witness for C9: a matching row returns `true` even when the remote replace
fails (`remoteOk = false`). -/
theorem update_row_by_id_spec_witness :
    (update_row_by_id "Cards" [[("ID", "7"), ("Name", "Visa")]] "7"
        [("Name", "Amex")] false).1 = true :=
  (update_row_by_id_spec "Cards" "7" [("Name", "Amex")]).1 _ false
    ⟨[("ID", "7"), ("Name", "Visa")], by simp, by decide⟩

/-- C10: with duplicate IDs, `updateByID` patches only the first (lowest-index)
matching row; every other row — including the later rows with the same ID —
appears unchanged in the replacement payload. -/
theorem update_row_by_id_dup_spec (table idv : String) (patch : List (String × String))
    (remoteOk : Bool) (pre mid post : List Row) (r1 r2 : Row)
    (hpre : ∀ x ∈ pre, cell x "ID" ≠ idv)
    (h1 : cell r1 "ID" = idv) (h2 : cell r2 "ID" = idv) :
    update_row_by_id table (pre ++ r1 :: (mid ++ r2 :: post)) idv patch remoteOk
      = (true,
         update_full_sheet table (pre ++ applyPatch r1 patch :: (mid ++ r2 :: post)) remoteOk,
         pre ++ applyPatch r1 patch :: (mid ++ r2 :: post)) := by
  unfold update_row_by_id
  rw [findIdxMatch_first _ pre r1 (mid ++ r2 :: post) (fun x hx => by simp [hpre x hx])
    (by simp [h1])]
  simp only [getD_append_len, set_append_len]

/-- Witness for C10: two rows share ID 5; only the first is patched, the second
appears byte-identical in the payload. -/
theorem update_row_by_id_dup_spec_witness :
    update_row_by_id "Transactions"
        [[("ID", "5"), ("V", "a")], [("ID", "5"), ("V", "b")]] "5" [("V", "z")] true
      = (true,
         [.replaceAll "Transactions" [[("ID", "5"), ("V", "z")], [("ID", "5"), ("V", "b")]],
          .clearCache],
         [[("ID", "5"), ("V", "z")], [("ID", "5"), ("V", "b")]]) := by
  have h := update_row_by_id_dup_spec "Transactions" "5" [("V", "z")] true
    [] [] [] [("ID", "5"), ("V", "a")] [("ID", "5"), ("V", "b")]
    (by simp) (by decide) (by decide)
  exact h

theorem filter_not_filter (p : Row → Bool) (l : List Row) :
    (l.filter (fun r => !(p r))).filter p = [] := by
  induction l with
  | nil => rfl
  | cons x xs ih =>
    by_cases hx : p x = true <;> simp [List.filter, hx, ih]

theorem periodMatch_mkStatementRow (cardId year month stmtDate billed unbilled unbilledDate
    paid dueDate : String) :
    periodMatch cardId year month
      (mkStatementRow cardId year month stmtDate billed unbilled unbilledDate paid dueDate)
      = true := by
  simp [periodMatch, cell, mkStatementRow, List.lookup]

/-- C5: saving statement details first removes every existing row for the
`(CardID, Year, Month)` triple and then appends the single new row: afterwards
the rows matching the triple are exactly the new row, rows of all other triples
are untouched, and the at-most-one-row-per-triple invariant is preserved for
every triple. -/
theorem saveStatement_spec (stmts : List Row) (cardId year month stmtDate billed unbilled
    unbilledDate paid dueDate : String) :
    (saveStatement stmts cardId year month stmtDate billed unbilled unbilledDate paid
        dueDate).filter (periodMatch cardId year month)
      = [mkStatementRow cardId year month stmtDate billed unbilled unbilledDate paid dueDate]
    ∧ (saveStatement stmts cardId year month stmtDate billed unbilled unbilledDate paid
        dueDate).filter (fun r => !(periodMatch cardId year month r))
      = stmts.filter (fun r => !(periodMatch cardId year month r))
    ∧ (∀ c y m : String,
        (stmts.filter (periodMatch c y m)).length ≤ 1 →
        ((saveStatement stmts cardId year month stmtDate billed unbilled unbilledDate paid
          dueDate).filter (periodMatch c y m)).length ≤ 1) := by
  have hnew := periodMatch_mkStatementRow cardId year month stmtDate billed unbilled
    unbilledDate paid dueDate
  refine ⟨?_, ?_, ?_⟩
  · unfold saveStatement
    rw [List.filter_append, filter_not_filter]
    simp [hnew]
  · unfold saveStatement
    rw [List.filter_append]
    have h1 : (stmts.filter (fun r => !(periodMatch cardId year month r))).filter
        (fun r => !(periodMatch cardId year month r))
        = stmts.filter (fun r => !(periodMatch cardId year month r)) := by
      rw [List.filter_filter]
      simp
    rw [h1]
    simp [hnew]
  · intro c y m hlen
    by_cases hpm : periodMatch c y m
        (mkStatementRow cardId year month stmtDate billed unbilled unbilledDate paid dueDate)
        = true
    · have heq : cardId = c ∧ year = y ∧ month = m := by
        simp only [periodMatch, cell, mkStatementRow, List.lookup, Bool.and_eq_true,
          beq_iff_eq] at hpm
        simp_all
      obtain ⟨rfl, rfl, rfl⟩ := heq
      unfold saveStatement
      rw [List.filter_append, filter_not_filter]
      simp [hnew]
    · unfold saveStatement
      rw [List.filter_append]
      have h2 : [mkStatementRow cardId year month stmtDate billed unbilled unbilledDate paid
          dueDate].filter (periodMatch c y m) = [] := by
        simp [List.filter, hpm]
      rw [h2, List.append_nil]
      have hsub : List.Sublist
          ((stmts.filter (fun r => !(periodMatch cardId year month r))).filter
            (periodMatch c y m))
          (stmts.filter (periodMatch c y m)) :=
        List.Sublist.filter _ (List.filter_sublist stmts)
      exact le_trans hsub.length_le hlen

/-- Witness for C5: re-saving the statement for card 1, 2025/October collapses
the two stale rows for that triple into the single new row and keeps the row of
the other triple. -/
theorem saveStatement_spec_witness :
    ((saveStatement
        [mkStatementRow "1" "2025" "October" "a" "100" "0" "" "0" "d1",
         mkStatementRow "1" "2025" "October" "b" "200" "0" "" "0" "d2",
         mkStatementRow "2" "2025" "October" "c" "300" "0" "" "0" "d3"]
        "1" "2025" "October" "s" "5000" "0" "" "0" "due").filter
          (periodMatch "1" "2025" "October")
      = [mkStatementRow "1" "2025" "October" "s" "5000" "0" "" "0" "due"])
    ∧ (((saveStatement
        [mkStatementRow "1" "2025" "October" "a" "100" "0" "" "0" "d1",
         mkStatementRow "1" "2025" "October" "b" "200" "0" "" "0" "d2",
         mkStatementRow "2" "2025" "October" "c" "300" "0" "" "0" "d3"]
        "1" "2025" "October" "s" "5000" "0" "" "0" "due").filter
          (periodMatch "2" "2025" "October")).length ≤ 1) := by
  constructor
  · exact (saveStatement_spec _ "1" "2025" "October" "s" "5000" "0" "" "0" "due").1
  · exact (saveStatement_spec _ "1" "2025" "October" "s" "5000" "0" "" "0" "due").2.2
      "2" "2025" "October" (by decide)

/-- C2: for a card and period that has a Statement row (`r` being the first
match), the reconciler reports billed from that row, paid as the sum of the
matching Card_Payments rows when at least one exists and the Statement's `Paid`
field otherwise, and remaining as `max 0 (billed - paid)`. -/
theorem cardDue_spec (stmts cpays : List Row) (cardId year month : String)
    (r : Row) (rest : List Row)
    (hm : stmts.filter (periodMatch cardId year month) = r :: rest) :
    (cardDue stmts cpays cardId year month).billed = safe_float (cell r "Billed")
    ∧ (cardDue stmts cpays cardId year month).paid
      = (if cpays.filter (periodMatch cardId year month) = []
         then safe_float (cell r "Paid")
         else ((cpays.filter (periodMatch cardId year month)).map
            (fun h => safe_float (cell h "Amount"))).sum)
    ∧ (cardDue stmts cpays cardId year month).remaining
      = max 0 ((cardDue stmts cpays cardId year month).billed
          - (cardDue stmts cpays cardId year month).paid) := by
  unfold cardDue
  rw [hm]
  exact ⟨rfl, rfl, rfl⟩

def stmtRowEx : Row := mkStatementRow "1" "2025" "October" "2025-10-01" "5000" "0" "" "0"
  "2025-10-20"

def cpaysEx : List Row :=
  [[("ID", "1"), ("CardID", "1"), ("Year", "2025"), ("Month", "October"),
    ("Date", "2025-10-05"), ("Amount", "2000"), ("Note", "")],
   [("ID", "2"), ("CardID", "1"), ("Year", "2025"), ("Month", "October"),
    ("Date", "2025-10-06"), ("Amount", "1000"), ("Note", "")]]

/-- Witness for C2, the spec's own instance: Billed 5000, stale Paid 0, ledger
payments 2000 and 1000 → paid 3000, remaining 2000 (the ledger sum wins). -/
theorem cardDue_spec_witness :
    (cardDue [stmtRowEx] cpaysEx "1" "2025" "October").paid = 3000
    ∧ (cardDue [stmtRowEx] cpaysEx "1" "2025" "October").remaining = 2000 := by
  have h := cardDue_spec [stmtRowEx] cpaysEx "1" "2025" "October" stmtRowEx [] (by decide)
  refine ⟨?_, ?_⟩
  · rw [h.2.1]
    decide
  · rw [h.2.2, h.2.1, h.1]
    decide

/-- C3 (amended): `get_df` never raises; a `WorksheetNotFound` yields an empty
frame that carries the full required schema, but any *other* table-level
failure yields a frame with no columns at all; an empty fetch yields an empty
frame with the full schema; and on a non-empty fetch every required column is
present in the result, the missing ones materialized with `""` appended to
every row. -/
theorem get_df_spec (name : String) (req : List String) (rows : List Row)
    (hreq : List.lookup name required_cols = some req) :
    get_df name .worksheetNotFound = ⟨req, []⟩
    ∧ get_df name .otherFailure = ⟨[], []⟩
    ∧ get_df name (.fetched []) = ⟨req, []⟩
    ∧ (∀ c ∈ req, c ∈ (get_df name (.fetched rows)).cols)
    ∧ (rows ≠ [] → (get_df name (.fetched rows)).rows
        = rows.map (fun r => r ++ (req.filter
            (fun c => !((recordCols rows).contains c))).map (fun c => (c, "")))) := by
  refine ⟨?_, rfl, ?_, ?_, ?_⟩
  · simp [get_df, hreq]
  · simp [get_df, hreq, recordCols]
  · intro c hc
    unfold get_df
    rw [hreq]
    by_cases hrows : rows = []
    · subst hrows
      simpa using hc
    · simp only [hrows, if_neg, if_false]
      simp only [List.mem_append]
      by_cases hmem : (recordCols rows).contains c
      · left
        exact List.elem_iff.mp hmem
      · right
        exact List.mem_filter.mpr ⟨hc, by simp only [hmem, Bool.not_false]⟩
  · intro hrows
    simp [get_df, hreq, hrows]

/-- Witness for C3 at the `Cards` table: table-not-found yields the schema'd
empty frame, and a fetch missing the `MatchCode` column materializes it. -/
theorem get_df_spec_witness :
    get_df "Cards" .worksheetNotFound
      = ⟨["ID", "Name", "Limit", "GraceDays", "MatchCode"], []⟩
    ∧ "MatchCode" ∈ (get_df "Cards"
        (.fetched [[("ID", "1"), ("Name", "Visa"), ("Limit", "100000"),
          ("GraceDays", "20")]])).cols := by
  constructor
  · exact (get_df_spec "Cards" ["ID", "Name", "Limit", "GraceDays", "MatchCode"] []
      (by decide)).1
  · exact (get_df_spec "Cards" ["ID", "Name", "Limit", "GraceDays", "MatchCode"]
      [[("ID", "1"), ("Name", "Visa"), ("Limit", "100000"), ("GraceDays", "20")]]
      (by decide)).2.2.2.1 "MatchCode" (by decide)

/-- C3 counterexample: the claim says *every* table-level read failure returns
an empty result that still carries the full required schema, but a generic
fetch failure (anything other than `WorksheetNotFound`) returns `pd.DataFrame()`
— an empty frame with no columns at all. -/
theorem get_df_claim_counterexample :
    get_df "Cards" .otherFailure = ⟨[], []⟩
    ∧ List.lookup "Cards" required_cols = some ["ID", "Name", "Limit", "GraceDays", "MatchCode"]
    ∧ (get_df "Cards" .otherFailure).cols ≠ ["ID", "Name", "Limit", "GraceDays", "MatchCode"] := by
  refine ⟨rfl, by decide, by decide⟩

theorem mem_eraseIdx_of_found (p : Row → Bool) (rows : List Row) (i : Nat) (r : Row)
    (hfind : findIdxMatch p rows = some i) (hr : r ∈ rows) (hpr : p r = false) :
    r ∈ rows.eraseIdx i := by
  induction rows generalizing i with
  | nil => cases hr
  | cons x xs ih =>
    unfold findIdxMatch at hfind
    by_cases hx : p x = true
    · simp only [hx, if_true, Option.some.injEq] at hfind
      subst hfind
      rcases List.mem_cons.mp hr with hr | hr
      · subst hr
        rw [hx] at hpr
        cases hpr
      · simpa [List.eraseIdx] using hr
    · simp only [Bool.not_eq_true] at hx
      simp only [hx, Bool.false_eq_true, if_false, Option.map_eq_some'] at hfind
      rcases hfind with ⟨j, hj, rfl⟩
      rcases List.mem_cons.mp hr with hr | hr
      · subst hr
        simp [List.eraseIdx]
      · simp only [List.eraseIdx, List.mem_cons]
        right
        exact ih j hj hr

theorem delete_row_by_id_no_replace (table : String) (rows : List Row) (idv : String) :
    ∀ c ∈ (delete_row_by_id table rows idv).2.1, ∀ t rs, c ≠ RCall.replaceAll t rs := by
  unfold delete_row_by_id
  cases hfind : findIdxMatch (fun r => pyGetStr r "ID" == idv) rows with
  | some i =>
    intro c hc t rs
    simp only [List.mem_cons, List.not_mem_nil, or_false] at hc
    rcases hc with rfl | rfl | rfl <;> simp
  | none =>
    intro c hc t rs
    simp only [List.mem_cons, List.not_mem_nil, or_false] at hc
    subst hc
    simp

theorem delete_row_by_id_preserves (table : String) (rows : List Row) (idv : String)
    (r : Row) (hr : r ∈ rows) (hid : pyGetStr r "ID" ≠ idv) :
    r ∈ (delete_row_by_id table rows idv).2.2 := by
  unfold delete_row_by_id
  cases hfind : findIdxMatch (fun x => pyGetStr x "ID" == idv) rows with
  | none => simpa using hr
  | some i =>
    exact mem_eraseIdx_of_found _ rows i r hfind hr (by simp [hid])

theorem gridSave_fold_no_replace (table : String) (toDel : List Row) :
    ∀ (acc : List RCall × List Row),
      (∀ c ∈ acc.1, ∀ t rs, c ≠ RCall.replaceAll t rs) →
      ∀ c ∈ (toDel.foldl (fun (acc : List RCall × List Row) r =>
          (acc.1 ++ (delete_row_by_id table acc.2 (pyGetStr r "ID")).2.1,
           (delete_row_by_id table acc.2 (pyGetStr r "ID")).2.2)) acc).1,
        ∀ t rs, c ≠ RCall.replaceAll t rs := by
  induction toDel with
  | nil => intro acc hacc; exact hacc
  | cons x xs ih =>
    intro acc hacc
    simp only [List.foldl]
    apply ih
    intro c hc t rs
    rcases List.mem_append.mp hc with hc | hc
    · exact hacc c hc t rs
    · exact delete_row_by_id_no_replace table acc.2 (pyGetStr x "ID") c hc t rs

theorem gridSave_fold_preserves (table : String) (toDel : List Row) :
    ∀ (acc : List RCall × List Row) (r : Row),
      r ∈ acc.2 → (∀ x ∈ toDel, pyGetStr x "ID" ≠ pyGetStr r "ID") →
      r ∈ (toDel.foldl (fun (acc : List RCall × List Row) r =>
          (acc.1 ++ (delete_row_by_id table acc.2 (pyGetStr r "ID")).2.1,
           (delete_row_by_id table acc.2 (pyGetStr r "ID")).2.2)) acc).2 := by
  induction toDel with
  | nil => intro acc r hr _; exact hr
  | cons x xs ih =>
    intro acc r hr hids
    simp only [List.foldl]
    apply ih
    · exact delete_row_by_id_preserves table acc.2 (pyGetStr x "ID") r hr
        (fun heq => hids x (by simp) heq.symm)
    · exact fun z hz => hids z (by simp [hz])

def exR1 : Row := [("ID", "1"), ("Note", "a")]
def exR2 : Row := [("ID", "2"), ("Note", "b")]
def exR2e : Row := [("ID", "2"), ("Note", "edited")]
def exR3 : Row := [("ID", "3"), ("Note", "c")]

/-- C1 counterexample: a save cycle with one row flagged for deletion *and*
another row edited issues both the per-ID delete and a full-table
content-replace in the same cycle — and the replace payload still contains the
just-deleted row, resurrecting it on the remote table.  This refutes the
claim's "only positional deletes, no content-replace" for every cycle with a
flagged row. -/
theorem gridSave_claim_counterexample :
    ((exR1, true) ∈ [(exR1, true), (exR2e, false), (exR3, false)] ∧ (exR1, true).2 = true)
    ∧ RCall.replaceAll "Card_Payments" [exR1, exR2e, exR3]
        ∈ (gridSave "Card_Payments" [exR1, exR2, exR3]
            [(exR1, true), (exR2e, false), (exR3, false)] [exR1, exR2, exR3]).1
    ∧ exR1 ∈ (gridSave "Card_Payments" [exR1, exR2, exR3]
            [(exR1, true), (exR2e, false), (exR3, false)] [exR1, exR2, exR3]).2 := by
  refine ⟨⟨by decide, rfl⟩, by decide, by decide⟩

/-- C1 (amended): in a save cycle with at least one row flagged for deletion in
which the edited content (with the flag column dropped) equals the original
collection — i.e. a pure deletion pass — the engine issues only per-ID
positional deletes (never a content-replace), and every remote row whose ID
differs from every flagged row's ID remains on the remote table.  (When a
content edit accompanies a deletion, the code *does* issue a replace in the
same cycle; see the counterexample.) -/
theorem gridSave_deleteOnly_spec (table : String) (df : List Row)
    (edited : List (Row × Bool)) (remote : List Row)
    (hflag : ∃ e ∈ edited, e.2 = true)
    (hnoedit : edited.map (fun e => e.1) = df) :
    (∀ t rs, RCall.replaceAll t rs ∉ (gridSave table df edited remote).1)
    ∧ (∀ r ∈ remote,
        (∀ e ∈ edited, e.2 = true → pyGetStr e.1 "ID" ≠ pyGetStr r "ID") →
        r ∈ (gridSave table df edited remote).2) := by
  unfold gridSave
  simp only [hnoedit, if_pos rfl]
  constructor
  · intro t rs hmem
    exact gridSave_fold_no_replace table _ ([], remote) (by simp) _ hmem t rs rfl
  · intro r hr hids
    apply gridSave_fold_preserves table _ ([], remote) r hr
    intro x hx
    rcases List.mem_map.mp hx with ⟨e, he, rfl⟩
    have := List.mem_filter.mp he
    exact hids e this.1 this.2

/-- Witness for C1: a pure deletion pass (row 1 flagged, nothing edited) issues
no content-replace and keeps the unflagged rows 2 and 3 on the remote table. -/
theorem gridSave_deleteOnly_spec_witness :
    (∀ t rs, RCall.replaceAll t rs ∉ (gridSave "Card_Payments" [exR1, exR2, exR3]
        [(exR1, true), (exR2, false), (exR3, false)] [exR1, exR2, exR3]).1)
    ∧ exR2 ∈ (gridSave "Card_Payments" [exR1, exR2, exR3]
        [(exR1, true), (exR2, false), (exR3, false)] [exR1, exR2, exR3]).2
    ∧ exR3 ∈ (gridSave "Card_Payments" [exR1, exR2, exR3]
        [(exR1, true), (exR2, false), (exR3, false)] [exR1, exR2, exR3]).2 := by
  have h := gridSave_deleteOnly_spec "Card_Payments" [exR1, exR2, exR3]
    [(exR1, true), (exR2, false), (exR3, false)] [exR1, exR2, exR3]
    ⟨(exR1, true), by simp, rfl⟩ rfl
  exact ⟨h.1, h.2 exR2 (by simp) (by decide), h.2 exR3 (by simp) (by decide)⟩
